import Mathlib

/-!
# Verification development for the ZetaSQL coercer (`zetasql/public/coercer.h`)

The repository provides only the interface header of the coercion /
common-supertype engine: declarations plus documentation comments for
`GetLiteralCoercionCost`, `Coercer::CoercesTo`, `Coercer::AssignableTo`,
`Coercer::GetCommonSuperType` and the private helpers
(`TypeCoercesTo`, `ParameterCoercesTo`, `LiteralCoercesTo`,
`StructCoercesTo`, `ArrayCoercesTo`, `GetCommonSuperTypeImpl`,
`GetCommonStructSuperType`, `GetCommonArraySuperType`,
`StripFieldAliasesFromStructType`).  The function bodies live outside the
repository, so every operational definition below is modelled from the
specification's description of those functions (each doc comment says so
explicitly).  The data model follows §3 of the specification: a
tagged-variant type tree, literal values carrying their own type and a
NULL flag, `InputArgumentType` with a literal/parameter/expression
discriminant and an optional per-field argument list, and a
`SignatureMatchResult` accumulator that is threaded through explicitly.
-/

mutual

/-- Modelled from the spec: the `Type` tree of the external type system (§3).
Scalar kinds relevant to the coercion rules the spec commits to, plus
`StructType` (ordered named fields) and `ArrayType` (single element type).
Field names are aliases, not identity. -/
inductive SqlType : Type where
  | int32 : SqlType
  | int64 : SqlType
  | uint32 : SqlType
  | uint64 : SqlType
  | float : SqlType
  | double : SqlType
  | string : SqlType
  | bytes : SqlType
  | bool : SqlType
  | date : SqlType
  | timestamp : SqlType
  | struct (fields : FieldList) : SqlType
  | array (elem : SqlType) : SqlType

/-- Modelled from the spec: the ordered field list of a `StructType`
(name alias paired with the field's type). -/
inductive FieldList : Type where
  | nil : FieldList
  | cons (name : String) (ty : SqlType) (rest : FieldList) : FieldList

end

mutual

/-- Size measure on the type tree, used for termination of the recursive
coercion and supertype procedures. -/
def SqlType.tsize : SqlType → Nat
  | .struct f => FieldList.tsize f + 1
  | .array e => SqlType.tsize e + 1
  | _ => 1

/-- Size measure on field lists. -/
def FieldList.tsize : FieldList → Nat
  | .nil => 1
  | .cons _ t rest => SqlType.tsize t + FieldList.tsize rest + 1

end

theorem SqlType.tsize_pos (t : SqlType) : 1 ≤ t.tsize := by
  cases t <;> simp [SqlType.tsize]

theorem FieldList.tsize_ge_one (f : FieldList) : 1 ≤ f.tsize := by
  cases f <;> simp [FieldList.tsize]

/-- Constructor code used to compare non-composite type kinds. -/
def SqlType.ctorCode : SqlType → Nat
  | .int32 => 0
  | .int64 => 1
  | .uint32 => 2
  | .uint64 => 3
  | .float => 4
  | .double => 5
  | .string => 6
  | .bytes => 7
  | .bool => 8
  | .date => 9
  | .timestamp => 10
  | .struct _ => 11
  | .array _ => 12

mutual

/-- Boolean structural equality on types. -/
def SqlType.beq : SqlType → SqlType → Bool
  | .struct f1, .struct f2 => FieldList.beq f1 f2
  | .array e1, .array e2 => SqlType.beq e1 e2
  | a, b => SqlType.ctorCode a == SqlType.ctorCode b

/-- Boolean structural equality on field lists (names and types). -/
def FieldList.beq : FieldList → FieldList → Bool
  | .nil, .nil => true
  | .cons n1 t1 r1, .cons n2 t2 r2 =>
      n1 == n2 && SqlType.beq t1 t2 && FieldList.beq r1 r2
  | _, _ => false

end

instance : BEq SqlType := ⟨SqlType.beq⟩

instance : BEq FieldList := ⟨FieldList.beq⟩

theorem beqSound (n : Nat) :
    (∀ a b : SqlType, SqlType.tsize a ≤ n → SqlType.beq a b = true → a = b) ∧
    (∀ f g : FieldList, FieldList.tsize f ≤ n → FieldList.beq f g = true → f = g) := by
  induction n with
  | zero =>
      refine ⟨fun a b hs _ => ?_, fun f g hs _ => ?_⟩
      · have := SqlType.tsize_pos a; omega
      · have := FieldList.tsize_ge_one f; omega
  | succ n ih =>
      refine ⟨fun a b hs h => ?_, fun f g hs h => ?_⟩
      · cases a <;> cases b <;> first
          | rfl
          | (exact Bool.noConfusion h)
          | (rename_i f1 f2
             simp only [SqlType.tsize] at hs
             exact congrArg SqlType.struct (ih.2 f1 f2 (by omega) h))
          | (rename_i e1 e2
             simp only [SqlType.tsize] at hs
             exact congrArg SqlType.array (ih.1 e1 e2 (by omega) h))
      · cases f <;> cases g
        · rfl
        · exact Bool.noConfusion h
        · exact Bool.noConfusion h
        · rename_i n1 t1 r1 n2 t2 r2
          simp only [FieldList.beq, Bool.and_eq_true, beq_iff_eq] at h
          obtain ⟨⟨hn, ht⟩, hr⟩ := h
          simp only [FieldList.tsize] at hs
          have h1 := SqlType.tsize_pos t1
          have h2 := FieldList.tsize_ge_one r1
          rw [hn, ih.1 t1 t2 (by omega) ht, ih.2 r1 r2 (by omega) hr]

theorem beqRefl (n : Nat) :
    (∀ a : SqlType, SqlType.tsize a ≤ n → SqlType.beq a a = true) ∧
    (∀ f : FieldList, FieldList.tsize f ≤ n → FieldList.beq f f = true) := by
  induction n with
  | zero =>
      refine ⟨fun a hs => ?_, fun f hs => ?_⟩
      · have := SqlType.tsize_pos a; omega
      · have := FieldList.tsize_ge_one f; omega
  | succ n ih =>
      refine ⟨fun a hs => ?_, fun f hs => ?_⟩
      · cases a <;> first
          | rfl
          | (rename_i f1
             simp only [SqlType.beq]
             simp only [SqlType.tsize] at hs
             exact ih.2 f1 (by omega))
          | (rename_i e1
             simp only [SqlType.beq]
             simp only [SqlType.tsize] at hs
             exact ih.1 e1 (by omega))
      · cases f
        · rfl
        · rename_i n1 t1 r1
          simp only [FieldList.beq, Bool.and_eq_true]
          simp only [FieldList.tsize] at hs
          have h1 := SqlType.tsize_pos t1
          have h2 := FieldList.tsize_ge_one r1
          exact ⟨⟨beq_self_eq_true n1, ih.1 t1 (by omega)⟩, ih.2 r1 (by omega)⟩

instance : LawfulBEq SqlType where
  eq_of_beq := fun {a b} h => (beqSound a.tsize).1 a b le_rfl h
  rfl := fun {a} => (beqRefl a.tsize).1 a le_rfl

instance : LawfulBEq FieldList where
  eq_of_beq := fun {f g} h => (beqSound f.tsize).2 f g le_rfl h
  rfl := fun {f} => (beqRefl f.tsize).2 f le_rfl

instance : DecidableEq SqlType := fun a b =>
  if h : SqlType.beq a b = true then .isTrue ((beqSound a.tsize).1 a b le_rfl h)
  else .isFalse (fun he => h (he ▸ (beqRefl a.tsize).1 a le_rfl))

instance : DecidableEq FieldList := fun f g =>
  if h : FieldList.beq f g = true then .isTrue ((beqSound f.tsize).2 f g le_rfl h)
  else .isFalse (fun he => h (he ▸ (beqRefl f.tsize).2 f le_rfl))

mutual

/-- Modelled from the spec: `Coercer::StripFieldAliasesFromStructType` —
strips off all field aliases inside a type, including nested structs.
Two struct/array types are *equivalent* iff they are structurally identical
ignoring field-name aliases, i.e. iff their stripped forms are equal (§3). -/
def SqlType.stripFieldAliases : SqlType → SqlType
  | .struct f => .struct (FieldList.stripFieldAliases f)
  | .array e => .array (SqlType.stripFieldAliases e)
  | t => t

/-- Alias stripping on field lists (every name becomes the empty alias). -/
def FieldList.stripFieldAliases : FieldList → FieldList
  | .nil => .nil
  | .cons _ t rest =>
      .cons "" (SqlType.stripFieldAliases t) (FieldList.stripFieldAliases rest)

end

/-- Structural equivalence ignoring field aliases (§3: "Two struct or array
types are equivalent if structurally identical ignoring field-name
aliases"). -/
def SqlType.equivalent (a b : SqlType) : Bool :=
  a.stripFieldAliases == b.stripFieldAliases

/-- Number of fields of a field list. -/
def FieldList.count : FieldList → Nat
  | .nil => 0
  | .cons _ _ rest => FieldList.count rest + 1

/-- Type of the field at a position (the spec's struct procedures address
fields positionally); out-of-range positions yield a fixed scalar type,
which faithful callers never consult. -/
def FieldList.typeAt : FieldList → Nat → SqlType
  | .nil, _ => .bool
  | .cons _ t _, 0 => t
  | .cons _ _ rest, n + 1 => FieldList.typeAt rest n

/-- Name alias of the field at a position. -/
def FieldList.nameAt : FieldList → Nat → String
  | .nil, _ => ""
  | .cons n _ _, 0 => n
  | .cons _ _ rest, k + 1 => FieldList.nameAt rest k

def SqlType.isStruct : SqlType → Bool
  | .struct _ => true
  | _ => false

def SqlType.isArray : SqlType → Bool
  | .array _ => true
  | _ => false

/-- Field count of a type (0 for non-structs). -/
def SqlType.fieldCount : SqlType → Nat
  | .struct f => f.count
  | _ => 0

/-- Modelled from the spec: the type system's pairwise *implicit* coercion
legality/cost table for scalar kinds (an external collaborator in §1/§6;
instantiated here with the coercions the spec commits to: numeric widenings
are implicit, STRING and BYTES have no implicit path between them, and the
narrowings INT64→INT32 / UINT64→UINT32 are not implicit).  `none` is the
distinguished "no coercion" answer.  Struct and array types never appear in
this table; the recursive procedures handle them. -/
def simpleImplicitCost : SqlType → SqlType → Option Nat
  | .int32, .int64 => some 2
  | .int32, .double => some 10
  | .int64, .double => some 12
  | .uint32, .int64 => some 2
  | .uint32, .uint64 => some 1
  | .uint32, .double => some 10
  | .uint64, .double => some 12
  | .float, .double => some 1
  | _, _ => none

/-- Modelled from the spec: coercions that become legal only under explicit
casting semantics (§4.2: "`is_explicit=true` widens the legal coercion set,
e.g., lossy numeric narrowing, incompatible-looking conversions permitted
only under an explicit cast"). -/
def simpleExplicitExtraCost : SqlType → SqlType → Option Nat
  | .int64, .int32 => some 20
  | .uint64, .uint32 => some 20
  | .int64, .uint64 => some 22
  | .uint64, .int64 => some 22
  | .double, .float => some 18
  | .double, .int64 => some 24
  | .string, .bytes => some 30
  | .bytes, .string => some 30
  | .string, .date => some 32
  | .string, .timestamp => some 32
  | .date, .string => some 32
  | .timestamp, .string => some 32
  | _, _ => none

/-- Modelled from the spec: the pairwise coercion legality/cost consulted by
`TypeCoercesTo`/`ParameterCoercesTo`/`LiteralCoercesTo` (§4.6): identical
types have cost 0, otherwise the implicit table applies, and under explicit
coercion the extra explicit table additionally applies. -/
def simpleCost (fromType toType : SqlType) (is_explicit : Bool) : Option Nat :=
  if fromType == toType then some 0
  else
    match simpleImplicitCost fromType toType with
    | some c => some c
    | none => if is_explicit then simpleExplicitExtraCost fromType toType else none

/-- Modelled from the spec: `Type::GetTypeCoercionCost`, the non-NULL
pairwise type coercion cost referenced by `GetLiteralCoercionCost` (§4.1).
`none` is the distinguished "no coercion" cost value. -/
def GetTypeCoercionCost (fromType toType : SqlType) : Option Nat :=
  simpleCost fromType toType false

/-- Modelled from the spec: a literal `Value` — immutable, carrying its own
type, a NULL flag, and an opaque payload standing for the concrete literal
content (§3).  The coercion engine never inspects the payload. -/
structure Value : Type where
  typ : SqlType
  isNull : Bool
  payload : Nat
deriving DecidableEq

/-- Modelled from the spec: `GetLiteralCoercionCost(literal_value, to_type)`
(header lines 41–44, §4.1): the cost to coerce NULL values is 1 regardless
of the target type, while the cost of coercing non-NULL values is the
pairwise `Type::GetTypeCoercionCost` of the value's own type and the target.
The function is total; "no legal coercion" is the sentinel `none`, never a
failure. -/
def GetLiteralCoercionCost (literal_value : Value) (to_type : SqlType) : Option Nat :=
  if literal_value.isNull then some 1
  else GetTypeCoercionCost literal_value.typ to_type

/-- Modelled from the spec: the discriminant tag of `InputArgumentType`
(§3): literal (with its embedded value), query parameter, or general
expression. -/
inductive ArgKind : Type where
  | literal (v : Value) : ArgKind
  | parameter : ArgKind
  | expression : ArgKind
deriving DecidableEq

mutual

/-- Modelled from the spec: `InputArgumentType` (§3) — the argument's type,
its discriminant tag, and an optional ordered per-field argument list that
is present only for literal or partially-literal struct arguments
("absence means treat all fields as non-literal"). -/
inductive InputArgumentType : Type where
  | mk (typ : SqlType) (kind : ArgKind) (fieldArgs : FieldArgs) : InputArgumentType

/-- Modelled from the spec: the optional field-level argument list, as the
tagged union recommended in §9 ({NonLiteralFields, LiteralFields(list)}). -/
inductive FieldArgs : Type where
  | nonLiteralFields : FieldArgs
  | literalFields (args : ArgList) : FieldArgs

/-- An ordered list of field `InputArgumentType`s. -/
inductive ArgList : Type where
  | nil : ArgList
  | cons (a : InputArgumentType) (rest : ArgList) : ArgList

end

def InputArgumentType.typ : InputArgumentType → SqlType
  | .mk t _ _ => t

def InputArgumentType.kind : InputArgumentType → ArgKind
  | .mk _ k _ => k

def InputArgumentType.fieldArgs : InputArgumentType → FieldArgs
  | .mk _ _ f => f

/-- Whether the argument is a literal. -/
def InputArgumentType.isLiteral : InputArgumentType → Bool
  | .mk _ (.literal _) _ => true
  | _ => false

/-- Whether the argument is a query parameter. -/
def InputArgumentType.isParameter : InputArgumentType → Bool
  | .mk _ .parameter _ => true
  | _ => false

/-- Whether the argument is a NULL literal. -/
def InputArgumentType.isLiteralNull : InputArgumentType → Bool
  | .mk _ (.literal v) _ => v.isNull
  | _ => false

/-- Element lookup in a field-argument list. -/
def ArgList.atIdx : ArgList → Nat → Option InputArgumentType
  | .nil, _ => none
  | .cons a _, 0 => some a
  | .cons _ rest, n + 1 => ArgList.atIdx rest n

/-- Modelled from the spec: `SignatureMatchResult` (§3) — caller-owned
accumulator with a failed-argument count, a matched-argument count, and an
aggregate coercion distance.  The engine only ever increments it. -/
structure SignatureMatchResult : Type where
  non_matched_arguments : Nat
  matched_arguments : Nat
  distance : Nat
deriving DecidableEq

/-- The all-zero accumulator a caller typically starts from. -/
def SignatureMatchResult.zero : SignatureMatchResult :=
  { non_matched_arguments := 0, matched_arguments := 0, distance := 0 }

/-- Record one successfully coerced argument at the given cost (§4.2: on
success, increment the matched count and add the cost to the distance). -/
def SignatureMatchResult.addSuccess (r : SignatureMatchResult) (cost : Nat) :
    SignatureMatchResult :=
  { r with matched_arguments := r.matched_arguments + 1,
           distance := r.distance + cost }

/-- Record one argument that failed to coerce (§4.2: on failure, increment
the non-matched count). -/
def SignatureMatchResult.addFailure (r : SignatureMatchResult) :
    SignatureMatchResult :=
  { r with non_matched_arguments := r.non_matched_arguments + 1 }

namespace Coercer

/-- Modelled from the spec: `Coercer::LiteralCoercesTo` (§4.2) — NULL
literals coerce to any type at cost 1; a non-NULL literal coerces according
to the pairwise table on the value's own type. -/
def LiteralCoercesTo (literal_value : Value) (to_type : SqlType)
    (is_explicit : Bool) (result : SignatureMatchResult) :
    Bool × SignatureMatchResult :=
  if literal_value.isNull then (true, result.addSuccess 1)
  else
    match simpleCost literal_value.typ to_type is_explicit with
    | some c => (true, result.addSuccess c)
    | none => (false, result.addFailure)

/-- Modelled from the spec: `Coercer::ParameterCoercesTo` (§4.6) — consults
the pairwise coercion cost and legality tables filtered by
`is_explicit`. -/
def ParameterCoercesTo (from_type to_type : SqlType) (is_explicit : Bool)
    (result : SignatureMatchResult) : Bool × SignatureMatchResult :=
  match simpleCost from_type to_type is_explicit with
  | some c => (true, result.addSuccess c)
  | none => (false, result.addFailure)

/-- Modelled from the spec: `Coercer::TypeCoercesTo` (§4.6) — the default
path for general (non-literal, non-parameter) expressions; consults the same
pairwise tables. -/
def TypeCoercesTo (from_type to_type : SqlType) (is_explicit : Bool)
    (result : SignatureMatchResult) : Bool × SignatureMatchResult :=
  match simpleCost from_type to_type is_explicit with
  | some c => (true, result.addSuccess c)
  | none => (false, result.addFailure)

end Coercer

/-- Whether an `ArgKind` tag is the literal tag. -/
def ArgKind.isLiteral : ArgKind → Bool
  | .literal _ => true
  | _ => false

/-- Whether an `ArgKind` tag is the query-parameter tag. -/
def ArgKind.isParameter : ArgKind → Bool
  | .parameter => true
  | _ => false

/-- Modelled from the spec (§4.4): the field argument used at position `i`
when coercing a struct argument: the provided field-level argument when the
optional list is present (a list inconsistent with the declared field type
is a caller contract violation per §7, in which case the declared field
type prevails), otherwise a plain non-literal argument of the field's
declared type ("absence means treat all fields as non-literal"). -/
def effectiveFieldArg (fargs : FieldArgs) (fieldType : SqlType) (i : Nat) :
    InputArgumentType :=
  match fargs with
  | .nonLiteralFields => .mk fieldType .expression .nonLiteralFields
  | .literalFields l =>
      match ArgList.atIdx l i with
      | some p =>
          if p.typ == fieldType then p
          else .mk fieldType .expression .nonLiteralFields
      | none => .mk fieldType .expression .nonLiteralFields

theorem effectiveFieldArg_typ (fargs : FieldArgs) (t : SqlType) (i : Nat) :
    (effectiveFieldArg fargs t i).typ = t := by
  unfold effectiveFieldArg
  cases fargs
  · rfl
  · rename_i l
    cases hx : ArgList.atIdx l i
    · simp [hx, InputArgumentType.typ]
    · rename_i p
      obtain ⟨pt, pk, pf⟩ := p
      by_cases hb : (pt == t) = true
      · simp [hx, hb, InputArgumentType.typ, eq_of_beq hb]
      · have hne : pt ≠ t := fun he => hb (by simp [he])
        simp [hx, hb, hne, InputArgumentType.typ]

namespace Coercer

mutual

/-- Modelled from the spec: `Coercer::CoercesTo` (§4.2, header lines
85–93).  Dispatch on the argument's nature: an exact type match succeeds at
distance 0; NULL literals coerce to any type at cost 1 (the NULL rule of
`LiteralCoercesTo`); struct-typed arguments go through the struct procedure
(§4.4); array-typed arguments through the array procedure (§4.5); remaining
literals through `LiteralCoercesTo`; parameters through
`ParameterCoercesTo`; general expressions through `TypeCoercesTo`. -/
def CoercesTo (from_argument : InputArgumentType) (to_type : SqlType)
    (is_explicit : Bool) (result : SignatureMatchResult) :
    Bool × SignatureMatchResult :=
  if from_argument.typ == to_type then (true, result.addSuccess 0)
  else if from_argument.isLiteralNull then (true, result.addSuccess 1)
  else
    match from_argument, to_type with
    | .mk (.struct fromFields) _ fargs, .struct toFields =>
        if FieldList.count fromFields == FieldList.count toFields then
          coerceFields fargs 0 fromFields toFields is_explicit result
        else (false, result.addFailure)
    | .mk (.struct _) _ _, _ => (false, result.addFailure)
    | .mk (.array fromElem) k _, .array toElem =>
        if SqlType.equivalent (.array fromElem) (.array toElem) then
          (true, result.addSuccess 0)
        else if is_explicit || k.isLiteral || k.isParameter then
          CoercesTo (.mk fromElem .expression .nonLiteralFields) toElem
            is_explicit result
        else (false, result.addFailure)
    | .mk (.array _) _ _, _ => (false, result.addFailure)
    | .mk _ (.literal v) _, t => LiteralCoercesTo v t is_explicit result
    | .mk t .parameter _, t2 => ParameterCoercesTo t t2 is_explicit result
    | .mk t .expression _, t2 => TypeCoercesTo t t2 is_explicit result
termination_by (InputArgumentType.typ from_argument).tsize
decreasing_by
  all_goals
    simp [InputArgumentType.typ, SqlType.tsize, FieldList.tsize, effectiveFieldArg_typ]

/-- Modelled from the spec (§4.4): positional walk over the struct's field
list, coercing each effective field argument to the corresponding target
field type, threading the accumulator, and propagating any single-field
failure as overall failure. -/
def coerceFields (fargs : FieldArgs) (i : Nat) (fromFields toFields : FieldList)
    (is_explicit : Bool) (result : SignatureMatchResult) :
    Bool × SignatureMatchResult :=
  match fromFields, toFields with
  | .cons _ t fr, .cons _ t2 tr =>
      match CoercesTo (effectiveFieldArg fargs t i) t2 is_explicit result with
      | (true, r2) => coerceFields fargs (i + 1) fr tr is_explicit r2
      | (false, r2) => (false, r2)
  | _, _ => (true, result)
termination_by fromFields.tsize
decreasing_by
  all_goals simp [effectiveFieldArg_typ, FieldList.tsize]
  all_goals have := FieldList.tsize_ge_one fr
  all_goals omega

end

/-- Modelled from the spec: `Coercer::StructCoercesTo` (§4.4, header lines
121–138): requires the target to be a struct with the same field count;
coerces each field argument positionally (field names are irrelevant).  The
`coerced_value` out-parameter is slated for removal by the header's TODO and
not modelled. -/
def StructCoercesTo (struct_argument : InputArgumentType) (to_type : SqlType)
    (is_explicit : Bool) (result : SignatureMatchResult) :
    Bool × SignatureMatchResult :=
  match struct_argument.typ, to_type with
  | .struct fromFields, .struct toFields =>
      if FieldList.count fromFields == FieldList.count toFields then
        coerceFields struct_argument.fieldArgs 0 fromFields toFields
          is_explicit result
      else (false, result.addFailure)
  | _, _ => (false, result.addFailure)

/-- Modelled from the spec: `Coercer::ArrayCoercesTo` (§4.5, header lines
140–149): requires both sides to be array types; equivalent array types
coerce at distance 0; under explicit coercion, or for a literal or
parameter argument, the arrays coerce whenever the element types coerce
(recursively), with the cost derived from the element coercion; implicit
coercion of a general expression otherwise fails. -/
def ArrayCoercesTo (array_argument : InputArgumentType) (to_type : SqlType)
    (is_explicit : Bool) (result : SignatureMatchResult) :
    Bool × SignatureMatchResult :=
  match array_argument.typ, to_type with
  | .array fromElem, .array toElem =>
      if SqlType.equivalent (.array fromElem) (.array toElem) then
        (true, result.addSuccess 0)
      else if is_explicit || array_argument.isLiteral || array_argument.isParameter then
        CoercesTo (.mk fromElem .expression .nonLiteralFields) toElem
          is_explicit result
      else (false, result.addFailure)
  | _, _ => (false, result.addFailure)

/-- Modelled from the spec: `Coercer::AssignableTo` (§4.3, header lines
95–102): first tries `CoercesTo`; if that fails, additionally permits
exactly the two narrowing rules INT64→INT32 and UINT64→UINT32 (returning
whatever the failed `CoercesTo` recorded in the accumulator, which the
engine never resets). -/
def AssignableTo (from_argument : InputArgumentType) (to_type : SqlType)
    (is_explicit : Bool) (result : SignatureMatchResult) :
    Bool × SignatureMatchResult :=
  match CoercesTo from_argument to_type is_explicit result with
  | (true, r) => (true, r)
  | (false, r) =>
      if (from_argument.typ == SqlType.int64 && to_type == SqlType.int32) ||
         (from_argument.typ == SqlType.uint64 && to_type == SqlType.uint32) then
        (true, r)
      else (false, r)

/-! ### Unfolding lemmas describing `CoercesTo`'s dispatch (§4.2) -/

theorem CoercesTo_same (t : SqlType) (k : ArgKind) (f : FieldArgs)
    (to_type : SqlType) (e : Bool) (r : SignatureMatchResult) (h : t = to_type) :
    CoercesTo (.mk t k f) to_type e r = (true, r.addSuccess 0) := by
  unfold CoercesTo
  simp [InputArgumentType.typ, h]

theorem CoercesTo_nullLit (t : SqlType) (v : Value) (f : FieldArgs)
    (to_type : SqlType) (e : Bool) (r : SignatureMatchResult)
    (hne : t ≠ to_type) (hnull : v.isNull = true) :
    CoercesTo (.mk t (.literal v) f) to_type e r = (true, r.addSuccess 1) := by
  unfold CoercesTo
  simp [InputArgumentType.typ, InputArgumentType.isLiteralNull, hne, hnull]

theorem CoercesTo_structPath (fl : FieldList) (k : ArgKind) (fargs : FieldArgs)
    (to_type : SqlType) (e : Bool) (r : SignatureMatchResult)
    (hne : SqlType.struct fl ≠ to_type)
    (hnull : (InputArgumentType.mk (.struct fl) k fargs).isLiteralNull = false) :
    CoercesTo (.mk (.struct fl) k fargs) to_type e r =
      StructCoercesTo (.mk (.struct fl) k fargs) to_type e r := by
  unfold CoercesTo StructCoercesTo
  cases to_type <;>
    simp_all [InputArgumentType.typ, InputArgumentType.fieldArgs,
      InputArgumentType.isLiteralNull]

theorem CoercesTo_arrayPath (el : SqlType) (k : ArgKind) (fargs : FieldArgs)
    (to_type : SqlType) (e : Bool) (r : SignatureMatchResult)
    (hne : SqlType.array el ≠ to_type)
    (hnull : (InputArgumentType.mk (.array el) k fargs).isLiteralNull = false) :
    CoercesTo (.mk (.array el) k fargs) to_type e r =
      ArrayCoercesTo (.mk (.array el) k fargs) to_type e r := by
  unfold CoercesTo ArrayCoercesTo
  cases to_type <;>
    simp_all [InputArgumentType.typ, InputArgumentType.isLiteral,
      InputArgumentType.isParameter, InputArgumentType.isLiteralNull,
      ArgKind.isLiteral, ArgKind.isParameter] <;>
  cases k <;> simp_all [ArgKind.isLiteral, ArgKind.isParameter]

theorem CoercesTo_literalPath (t : SqlType) (v : Value) (f : FieldArgs)
    (to_type : SqlType) (e : Bool) (r : SignatureMatchResult)
    (hs : t.isStruct = false) (ha : t.isArray = false)
    (hne : t ≠ to_type) (hnull : v.isNull = false) :
    CoercesTo (.mk t (.literal v) f) to_type e r = LiteralCoercesTo v to_type e r := by
  unfold CoercesTo
  cases t <;>
    simp_all [InputArgumentType.typ, InputArgumentType.isLiteralNull,
      SqlType.isStruct, SqlType.isArray]

theorem CoercesTo_parameterPath (t : SqlType) (f : FieldArgs)
    (to_type : SqlType) (e : Bool) (r : SignatureMatchResult)
    (hs : t.isStruct = false) (ha : t.isArray = false) (hne : t ≠ to_type) :
    CoercesTo (.mk t .parameter f) to_type e r = ParameterCoercesTo t to_type e r := by
  unfold CoercesTo
  cases t <;>
    simp_all [InputArgumentType.typ, InputArgumentType.isLiteralNull,
      SqlType.isStruct, SqlType.isArray]

theorem CoercesTo_expressionPath (t : SqlType) (f : FieldArgs)
    (to_type : SqlType) (e : Bool) (r : SignatureMatchResult)
    (hs : t.isStruct = false) (ha : t.isArray = false) (hne : t ≠ to_type) :
    CoercesTo (.mk t .expression f) to_type e r = TypeCoercesTo t to_type e r := by
  unfold CoercesTo
  cases t <;>
    simp_all [InputArgumentType.typ, InputArgumentType.isLiteralNull,
      SqlType.isStruct, SqlType.isArray]

theorem coerceFields_nil_left (fargs : FieldArgs) (i : Nat) (tl : FieldList)
    (e : Bool) (r : SignatureMatchResult) :
    coerceFields fargs i .nil tl e r = (true, r) := by
  unfold coerceFields
  cases tl <;> rfl

theorem coerceFields_nil_right (fargs : FieldArgs) (i : Nat) (fl : FieldList)
    (e : Bool) (r : SignatureMatchResult) :
    coerceFields fargs i fl .nil e r = (true, r) := by
  unfold coerceFields
  cases fl <;> rfl

theorem coerceFields_cons (fargs : FieldArgs) (i : Nat)
    (n1 : String) (t : SqlType) (fr : FieldList)
    (n2 : String) (t2 : SqlType) (tr : FieldList)
    (e : Bool) (r : SignatureMatchResult) :
    coerceFields fargs i (.cons n1 t fr) (.cons n2 t2 tr) e r =
      match CoercesTo (effectiveFieldArg fargs t i) t2 e r with
      | (true, r2) => coerceFields fargs (i + 1) fr tr e r2
      | (false, r2) => (false, r2) := by
  rw [coerceFields]

end Coercer

/-! ### Basic facts about equivalence and the accumulator -/

theorem SqlType.equivalent_array (a b : SqlType) :
    SqlType.equivalent (.array a) (.array b) = SqlType.equivalent a b := by
  simp [SqlType.equivalent, SqlType.stripFieldAliases, SqlType.beq]

theorem SqlType.equivalent_refl (a : SqlType) : SqlType.equivalent a a = true := by
  simp [SqlType.equivalent]

theorem SqlType.ne_of_not_equivalent {a b : SqlType}
    (h : SqlType.equivalent a b = false) : a ≠ b := by
  intro he
  rw [he, SqlType.equivalent_refl] at h
  exact Bool.noConfusion h

namespace Coercer


/-- The verdict of `CoercesTo` does not depend on the incoming accumulator
(the engine only increments `result`; §3). -/
theorem CoercesTo_fst_const (a : InputArgumentType) (to_type : SqlType)
    (e : Bool) (r : SignatureMatchResult) :
    ∀ r2, (CoercesTo a to_type e r).1 = (CoercesTo a to_type e r2).1 := by
  refine CoercesTo.induct
    (fun a to_type e r =>
      ∀ r2, (CoercesTo a to_type e r).1 = (CoercesTo a to_type e r2).1)
    (fun fargs i fl tl e r =>
      ∀ r2, (coerceFields fargs i fl tl e r).1 = (coerceFields fargs i fl tl e r2).1)
    ?_ ?_ ?_ ?_ ?_ ?_ ?_ ?_ ?_ ?_ ?_ ?_ ?_ ?_ ?_ a to_type e r
  · intro a t e r h r2
    obtain ⟨ty, k, f⟩ := a
    rw [CoercesTo_same ty k f t e r (eq_of_beq h),
      CoercesTo_same ty k f t e r2 (eq_of_beq h)]
  · intro a t e r hne hnull r2
    obtain ⟨ty, k, f⟩ := a
    cases k with
    | literal v =>
        have hv : v.isNull = true := hnull
        have hne2 : ty ≠ t := fun he => hne (by simp [InputArgumentType.typ, he])
        rw [CoercesTo_nullLit ty v f t e r hne2 hv,
          CoercesTo_nullLit ty v f t e r2 hne2 hv]
    | parameter => exact absurd hnull (by simp [InputArgumentType.isLiteralNull])
    | expression => exact absurd hnull (by simp [InputArgumentType.isLiteralNull])
  · intro e r fl k fargs tl hcount hnull hne ih r2
    have hne2 : SqlType.struct fl ≠ SqlType.struct tl :=
      fun he => hne (by simp [InputArgumentType.typ, he])
    have hnull2 : (InputArgumentType.mk (.struct fl) k fargs).isLiteralNull = false := by
      simpa using hnull
    rw [CoercesTo_structPath fl k fargs _ e r hne2 hnull2,
      CoercesTo_structPath fl k fargs _ e r2 hne2 hnull2]
    simp only [StructCoercesTo, InputArgumentType.typ, InputArgumentType.fieldArgs,
      hcount, if_true]
    exact ih r2
  · intro e r fl k fargs tl hcount hnull hne r2
    have hne2 : SqlType.struct fl ≠ SqlType.struct tl :=
      fun he => hne (by simp [InputArgumentType.typ, he])
    have hnull2 : (InputArgumentType.mk (.struct fl) k fargs).isLiteralNull = false := by
      simpa using hnull
    rw [CoercesTo_structPath fl k fargs _ e r hne2 hnull2,
      CoercesTo_structPath fl k fargs _ e r2 hne2 hnull2]
    simp [StructCoercesTo, InputArgumentType.typ, InputArgumentType.fieldArgs, hcount]
  · intro t e r fl k fargs hnotstruct hne hnull r2
    have hne2 : SqlType.struct fl ≠ t := fun he => hne (by simp [InputArgumentType.typ, he])
    have hnull2 : (InputArgumentType.mk (.struct fl) k fargs).isLiteralNull = false := by
      simpa using hnull
    rw [CoercesTo_structPath fl k fargs t e r hne2 hnull2,
      CoercesTo_structPath fl k fargs t e r2 hne2 hnull2]
    cases t
    case struct tl => exact absurd rfl (hnotstruct tl)
    all_goals simp [StructCoercesTo, InputArgumentType.typ]
  · intro e r el k fargs toEl heqv hnull hne r2
    have hne2 : SqlType.array el ≠ SqlType.array toEl :=
      fun he => hne (by simp [InputArgumentType.typ, he])
    have hnull2 : (InputArgumentType.mk (.array el) k fargs).isLiteralNull = false := by
      simpa using hnull
    rw [CoercesTo_arrayPath el k fargs _ e r hne2 hnull2,
      CoercesTo_arrayPath el k fargs _ e r2 hne2 hnull2]
    simp [ArrayCoercesTo, InputArgumentType.typ, heqv]
  · intro e r el k fargs toEl heqv hflex hnull hne ih r2
    have hne2 : SqlType.array el ≠ SqlType.array toEl :=
      fun he => hne (by simp [InputArgumentType.typ, he])
    have hnull2 : (InputArgumentType.mk (.array el) k fargs).isLiteralNull = false := by
      simpa using hnull
    rw [CoercesTo_arrayPath el k fargs _ e r hne2 hnull2,
      CoercesTo_arrayPath el k fargs _ e r2 hne2 hnull2]
    have hflex2 : (e || (InputArgumentType.mk (.array el) k fargs).isLiteral ||
        (InputArgumentType.mk (.array el) k fargs).isParameter) = true := by
      cases k <;> simpa [InputArgumentType.isLiteral, InputArgumentType.isParameter,
        ArgKind.isLiteral, ArgKind.isParameter] using hflex
    simp only [ArrayCoercesTo, InputArgumentType.typ, heqv, Bool.false_eq_true,
      if_false, hflex2, if_true]
    exact ih r2
  · intro e r el k fargs toEl heqv hflex hnull hne r2
    have hne2 : SqlType.array el ≠ SqlType.array toEl :=
      fun he => hne (by simp [InputArgumentType.typ, he])
    have hnull2 : (InputArgumentType.mk (.array el) k fargs).isLiteralNull = false := by
      simpa using hnull
    rw [CoercesTo_arrayPath el k fargs _ e r hne2 hnull2,
      CoercesTo_arrayPath el k fargs _ e r2 hne2 hnull2]
    have hflex2 : (e || (InputArgumentType.mk (.array el) k fargs).isLiteral ||
        (InputArgumentType.mk (.array el) k fargs).isParameter) = false := by
      cases k <;> simpa [InputArgumentType.isLiteral, InputArgumentType.isParameter,
        ArgKind.isLiteral, ArgKind.isParameter] using hflex
    simp [ArrayCoercesTo, InputArgumentType.typ, heqv, hflex2]
  · intro t e r el k fargs hnotarr hne hnull r2
    have hne2 : SqlType.array el ≠ t := fun he => hne (by simp [InputArgumentType.typ, he])
    have hnull2 : (InputArgumentType.mk (.array el) k fargs).isLiteralNull = false := by
      simpa using hnull
    rw [CoercesTo_arrayPath el k fargs t e r hne2 hnull2,
      CoercesTo_arrayPath el k fargs t e r2 hne2 hnull2]
    cases t
    case array toEl => exact absurd rfl (hnotarr toEl)
    all_goals simp [ArrayCoercesTo, InputArgumentType.typ]
  · intro e r ty v fargs t hns1 hns2 hna1 hna2 hnull hne r2
    have hne2 : ty ≠ t := fun he => hne (by simp [InputArgumentType.typ, he])
    have hv : v.isNull = false := by simpa [InputArgumentType.isLiteralNull] using hnull
    have hs : ty.isStruct = false := by
      cases ty <;> first | rfl | exact absurd rfl (hns2 _)
    have ha : ty.isArray = false := by
      cases ty <;> first | rfl | exact absurd rfl (hna2 _)
    rw [CoercesTo_literalPath ty v fargs t e r hs ha hne2 hv,
      CoercesTo_literalPath ty v fargs t e r2 hs ha hne2 hv]
    simp only [LiteralCoercesTo, hv, Bool.false_eq_true, if_false]
    cases simpleCost v.typ t e <;> simp
  · intro e r ty fargs t hns1 hns2 hna1 hna2 hnull hne r2
    have hne2 : ty ≠ t := fun he => hne (by simp [InputArgumentType.typ, he])
    have hs : ty.isStruct = false := by
      cases ty <;> first | rfl | exact absurd rfl (hns2 _)
    have ha : ty.isArray = false := by
      cases ty <;> first | rfl | exact absurd rfl (hna2 _)
    rw [CoercesTo_parameterPath ty fargs t e r hs ha hne2,
      CoercesTo_parameterPath ty fargs t e r2 hs ha hne2]
    simp only [ParameterCoercesTo]
    cases simpleCost ty t e <;> simp
  · intro e r ty fargs t hns1 hns2 hna1 hna2 hnull hne r2
    have hne2 : ty ≠ t := fun he => hne (by simp [InputArgumentType.typ, he])
    have hs : ty.isStruct = false := by
      cases ty <;> first | rfl | exact absurd rfl (hns2 _)
    have ha : ty.isArray = false := by
      cases ty <;> first | rfl | exact absurd rfl (hna2 _)
    rw [CoercesTo_expressionPath ty fargs t e r hs ha hne2,
      CoercesTo_expressionPath ty fargs t e r2 hs ha hne2]
    simp only [TypeCoercesTo]
    cases simpleCost ty t e <;> simp
  · intro fargs i e r n1 t fr n2 t2 tr rmid hx ih1 ih2 rB
    rw [coerceFields_cons, coerceFields_cons, hx]
    rcases hy : CoercesTo (effectiveFieldArg fargs t i) t2 e rB with ⟨b2, rB2⟩
    have hb : b2 = true := by
      have := ih1 rB
      rw [hx, hy] at this
      exact this.symm
    subst hb
    exact ih2 rB2
  · intro fargs i e r n1 t fr n2 t2 tr rmid hx ih1 rB
    rw [coerceFields_cons, coerceFields_cons, hx]
    rcases hy : CoercesTo (effectiveFieldArg fargs t i) t2 e rB with ⟨b2, rB2⟩
    have hb : b2 = false := by
      have := ih1 rB
      rw [hx, hy] at this
      exact this.symm
    subst hb
    rfl
  · intro fargs i fl tl e r hnotcons rB
    cases fl with
    | nil => rw [coerceFields_nil_left, coerceFields_nil_left]
    | cons n t fr =>
        cases tl with
        | nil => rw [coerceFields_nil_right, coerceFields_nil_right]
        | cons n2 t2 tr => exact absurd rfl (hnotcons n t fr n2 t2 tr rfl)

/-- Accumulator-independence of the struct field walker's verdict. -/
theorem coerceFields_fst_const : ∀ (fargs : FieldArgs) (i : Nat)
    (fl tl : FieldList) (e : Bool) (r r2 : SignatureMatchResult),
    (coerceFields fargs i fl tl e r).1 = (coerceFields fargs i fl tl e r2).1
  | fargs, i, .nil, tl, e, r, r2 => by
      rw [coerceFields_nil_left, coerceFields_nil_left]
  | fargs, i, .cons n t fr, .nil, e, r, r2 => by
      rw [coerceFields_nil_right, coerceFields_nil_right]
  | fargs, i, .cons n t fr, .cons n2 t2 tr, e, r, r2 => by
      rw [coerceFields_cons, coerceFields_cons]
      rcases hx : CoercesTo (effectiveFieldArg fargs t i) t2 e r with ⟨b1, rm1⟩
      rcases hy : CoercesTo (effectiveFieldArg fargs t i) t2 e r2 with ⟨b2, rm2⟩
      have hb : b1 = b2 := by
        have := CoercesTo_fst_const (effectiveFieldArg fargs t i) t2 e r r2
        rw [hx, hy] at this; exact this
      cases b1
      · cases b2
        · rfl
        · exact Bool.noConfusion hb
      · cases b2
        · exact Bool.noConfusion hb
        · exact coerceFields_fst_const fargs (i + 1) fr tr e rm1 rm2

/-- The struct field walker ignores the field-name aliases of both field
lists: its result depends only on the field counts and the per-position
field types. -/
theorem coerceFields_typeAt_invariant : ∀ (fl fl2 tl tl2 : FieldList)
    (fargs : FieldArgs) (i : Nat) (e : Bool) (r : SignatureMatchResult),
    fl.count = fl2.count → (∀ j, fl.typeAt j = fl2.typeAt j) →
    tl.count = tl2.count → (∀ j, tl.typeAt j = tl2.typeAt j) →
    coerceFields fargs i fl tl e r = coerceFields fargs i fl2 tl2 e r
  | .nil, .nil, tl, tl2, fargs, i, e, r, hc, hT, hc2, hT2 => by
      rw [coerceFields_nil_left, coerceFields_nil_left]
  | .nil, .cons n2 t2 fr2, tl, tl2, fargs, i, e, r, hc, hT, hc2, hT2 => by
      simp [FieldList.count] at hc
  | .cons n t fr, .nil, tl, tl2, fargs, i, e, r, hc, hT, hc2, hT2 => by
      simp [FieldList.count] at hc
  | .cons n t fr, .cons n2 t2 fr2, .nil, .nil, fargs, i, e, r, hc, hT, hc2, hT2 => by
      rw [coerceFields_nil_right, coerceFields_nil_right]
  | .cons n t fr, .cons n2 t2 fr2, .nil, .cons m2 u2 ur2, fargs, i, e, r, hc, hT, hc2, hT2 => by
      simp [FieldList.count] at hc2
  | .cons n t fr, .cons n2 t2 fr2, .cons m u ur, .nil, fargs, i, e, r, hc, hT, hc2, hT2 => by
      simp [FieldList.count] at hc2
  | .cons n t fr, .cons n2 t2 fr2, .cons m u ur, .cons m2 u2 ur2, fargs, i, e, r,
      hc, hT, hc2, hT2 => by
      have ht0 : t = t2 := hT 0
      have hu0 : u = u2 := hT2 0
      subst ht0
      subst hu0
      rw [coerceFields_cons, coerceFields_cons]
      rcases hx : CoercesTo (effectiveFieldArg fargs t i) u e r with ⟨b, rm⟩
      cases b
      · rfl
      · exact coerceFields_typeAt_invariant fr fr2 ur ur2 fargs (i + 1) e rm
          (by simpa [FieldList.count] using hc)
          (fun j => hT (j + 1))
          (by simpa [FieldList.count] using hc2)
          (fun j => hT2 (j + 1))

end Coercer

/-! ### Payload erasure and well-formedness predicates -/

/-- Erase the opaque literal payload of a tag, keeping type and NULL-ness. -/
def ArgKind.erasePayload : ArgKind → ArgKind
  | .literal v => .literal ⟨v.typ, v.isNull, 0⟩
  | k => k

mutual

/-- Erase every literal payload inside an argument (type, tags and NULL
flags are kept).  Two arguments with equal erasures differ only in the
concrete literal contents the engine never inspects. -/
def InputArgumentType.erasePayloads : InputArgumentType → InputArgumentType
  | .mk t k f => .mk t (ArgKind.erasePayload k) (FieldArgs.erasePayloads f)

def FieldArgs.erasePayloads : FieldArgs → FieldArgs
  | .nonLiteralFields => .nonLiteralFields
  | .literalFields l => .literalFields (ArgList.erasePayloads l)

def ArgList.erasePayloads : ArgList → ArgList
  | .nil => .nil
  | .cons a rest => .cons (InputArgumentType.erasePayloads a) (ArgList.erasePayloads rest)

end

mutual

/-- An argument is non-NULL well-formed when every embedded literal value is
non-NULL and carries exactly the argument's declared type (§3's consistency
invariant), recursively through the optional field-argument lists. -/
def InputArgumentType.nonNullWellFormed : InputArgumentType → Bool
  | .mk t (.literal v) fargs =>
      !v.isNull && (v.typ == t) && FieldArgs.nonNullWellFormed fargs
  | .mk _ _ fargs => FieldArgs.nonNullWellFormed fargs

def FieldArgs.nonNullWellFormed : FieldArgs → Bool
  | .nonLiteralFields => true
  | .literalFields l => ArgList.nonNullWellFormed l

def ArgList.nonNullWellFormed : ArgList → Bool
  | .nil => true
  | .cons a rest =>
      InputArgumentType.nonNullWellFormed a && ArgList.nonNullWellFormed rest

end

/-! ### The common-supertype computation (§4.7) -/

/-- Modelled from the spec: `InputArgumentTypeSet` (§3) — an ordered
collection of arguments; insertion order is preserved and observable. -/
structure InputArgumentTypeSet : Type where
  arguments : List InputArgumentType

/-- The first inserted non-NULL-literal argument of a list (§3: "the set
remembers which was the first inserted non-NULL-literal argument"). -/
def listFirstNonNull (args : List InputArgumentType) : Option InputArgumentType :=
  args.find? (fun a => !a.isLiteralNull)

/-- Modelled from the spec: the set's distinguished first non-NULL argument
(header lines 73–79). -/
def InputArgumentTypeSet.firstNonNull (s : InputArgumentTypeSet) :
    Option InputArgumentType :=
  listFirstNonNull s.arguments

namespace Coercer

/-- One member's implicit-coercion verdict against a candidate supertype,
on a fresh accumulator (§4.7: members "must coerce to it (using implicit
rules)"). -/
def coercesImplicitly (a : InputArgumentType) (c : SqlType) : Bool :=
  (CoercesTo a c false SignatureMatchResult.zero).1

/-- Whether every member of the set implicitly coerces to candidate `c`. -/
def qualifiesAsSuperType (args : List InputArgumentType) (c : SqlType) : Bool :=
  args.all (fun a => coercesImplicitly a c)

/-- Aggregate coercion distance of the whole member list against candidate
`c` (§4.7: "minimum aggregate coercion distance"). -/
def aggregateDistance (args : List InputArgumentType) (c : SqlType) : Nat :=
  (args.map (fun a => (CoercesTo a c false SignatureMatchResult.zero).2.distance)).sum

/-- Among the candidates in declaration order, the qualifying one of
minimal aggregate distance; ties favour the earlier candidate (§4.7:
"ties broken by first-declared candidate in set-insertion order"). -/
def pickStep (args : List InputArgumentType) (best : Option SqlType)
    (c : SqlType) : Option SqlType :=
  if qualifiesAsSuperType args c then
    match best with
    | none => some c
    | some b =>
        if aggregateDistance args c < aggregateDistance args b then some c
        else some b
  else best

def pickBestCandidate (args : List InputArgumentType) (cands : List SqlType) :
    Option SqlType :=
  cands.foldl (pickStep args) none

/-- Flexible/rigid partition (§4.7): literals are flexible, parameters are
flexible when `treat_parameters_as_literals` is set, everything else is
rigid. -/
def isFlexible (treat_parameters_as_literals : Bool) (a : InputArgumentType) : Bool :=
  a.isLiteral || (treat_parameters_as_literals && a.isParameter)

/-- Candidate supertypes (§4.7): the rigid members' exact types, or the
flexible members' types when there are zero rigid members. -/
def candidateTypes (args : List InputArgumentType)
    (treat_parameters_as_literals : Bool) : List SqlType :=
  let rigid := args.filter (fun a => !(isFlexible treat_parameters_as_literals a))
  (if rigid.isEmpty then args else rigid).map (fun a => a.typ)

/-- Element argument used by the array supertype (§4.7): the member's
literal/parameter/expression nature is preserved on the element type. -/
def elementArg (a : InputArgumentType) : InputArgumentType :=
  match a.typ, a.kind with
  | .array el, .literal v => .mk el (.literal ⟨el, v.isNull, v.payload⟩) .nonLiteralFields
  | .array el, .parameter => .mk el .parameter .nonLiteralFields
  | .array el, .expression => .mk el .expression .nonLiteralFields
  | _, _ => .mk .bool .expression .nonLiteralFields

/-- Field argument of member `a` at position `i` used by the struct
supertype (§4.7), mirroring the effective field argument of
`StructCoercesTo`; a NULL struct literal contributes a NULL literal of the
field's type. -/
def fieldArgAt (a : InputArgumentType) (i : Nat) : InputArgumentType :=
  match a.typ with
  | .struct fl =>
      if a.isLiteralNull then
        .mk (fl.typeAt i) (.literal ⟨fl.typeAt i, true, 0⟩) .nonLiteralFields
      else effectiveFieldArg a.fieldArgs (fl.typeAt i) i
  | _ => .mk .bool .expression .nonLiteralFields

/-- Total size of the member types, the termination measure of the
supertype recursion. -/
def setWeight (l : List InputArgumentType) : Nat :=
  (l.map (fun a => a.typ.tsize)).sum

theorem FieldList.typeAt_tsize_le : ∀ (fl : FieldList) (i : Nat),
    (fl.typeAt i).tsize ≤ fl.tsize
  | .nil, _ => le_rfl
  | .cons _ t fr, 0 => by
      simp only [FieldList.typeAt, FieldList.tsize]; omega
  | .cons _ t fr, i + 1 => by
      have := FieldList.typeAt_tsize_le fr i
      simp only [FieldList.typeAt, FieldList.tsize]; omega

theorem InputArgumentType.typ_mk (t : SqlType) (k : ArgKind) (f : FieldArgs) :
    (InputArgumentType.mk t k f).typ = t := rfl

theorem fieldArgAt_tsize_lt (a : InputArgumentType) (i : Nat)
    (h : a.typ.isStruct = true) : (fieldArgAt a i).typ.tsize < a.typ.tsize := by
  obtain ⟨t, k, f⟩ := a
  simp only [InputArgumentType.typ] at h
  cases t <;> simp [SqlType.isStruct] at h
  rename_i fl
  have h1 := FieldList.typeAt_tsize_le fl i
  by_cases hn : (InputArgumentType.mk (SqlType.struct fl) k f).isLiteralNull = true
  · simp only [fieldArgAt, InputArgumentType.typ, hn, if_true, SqlType.tsize]
    omega
  · have hn2 : (InputArgumentType.mk (SqlType.struct fl) k f).isLiteralNull = false := by
      simpa using hn
    rw [show fieldArgAt (InputArgumentType.mk (SqlType.struct fl) k f) i =
        effectiveFieldArg f (fl.typeAt i) i from by
      simp [fieldArgAt, InputArgumentType.typ_mk, hn2, InputArgumentType.fieldArgs]]
    rw [effectiveFieldArg_typ, InputArgumentType.typ_mk]
    simp only [SqlType.tsize]
    omega

theorem elementArg_tsize_lt (a : InputArgumentType)
    (h : a.typ.isArray = true) : (elementArg a).typ.tsize < a.typ.tsize := by
  obtain ⟨t, k, f⟩ := a
  simp only [InputArgumentType.typ] at h ⊢
  cases t <;> simp [SqlType.isArray] at h
  rename_i el
  cases k <;>
      simp [elementArg, InputArgumentType.typ, InputArgumentType.kind, SqlType.tsize] <;>
    omega

theorem setWeight_map_lt (l : List InputArgumentType)
    (f : InputArgumentType → InputArgumentType) (hne : l ≠ [])
    (h : ∀ a ∈ l, (f a).typ.tsize < a.typ.tsize) :
    setWeight (l.map f) < setWeight l := by
  induction l with
  | nil => exact absurd rfl hne
  | cons a rest ih =>
      cases rest with
      | nil =>
          simp only [List.map, setWeight, List.map_cons, List.map_nil, List.sum_cons,
            List.sum_nil]
          have := h a (by simp)
          omega
      | cons b rest2 =>
          have h1 := h a (by simp)
          have h2 := ih (by simp) (fun x hx => h x (List.mem_cons_of_mem a hx))
          simp only [setWeight, List.map_cons, List.sum_cons] at *
          omega

mutual

/-- Modelled from the spec: the core of `Coercer::GetCommonSuperTypeImpl`
(§4.7, header lines 104–112), on the set's ordered member list.  Struct
members route the whole computation through the struct supertype; array
members route through the array supertype (element supertype wrapped in an
array type); otherwise candidates are drawn from the rigid members (or all
members when no rigid member exists), each candidate must be implicitly
coercible from every member, and the qualifying candidate of minimal
aggregate distance wins, ties resolved towards the first-declared. -/
def commonSuperTypeList (args : List InputArgumentType)
    (treat_parameters_as_literals : Bool) : Option SqlType :=
  match hargs : args with
  | [] => none
  | a0 :: rest =>
      if (a0 :: rest).any (fun a => a.typ.isStruct) then
        if hall : ∀ a ∈ a0 :: rest, a.typ.isStruct = true then
          match ((listFirstNonNull (a0 :: rest)).getD a0).typ with
          | .struct srcFl =>
              if ∀ a ∈ a0 :: rest, a.typ.fieldCount = srcFl.count then
                match commonStructFields (a0 :: rest) (by simp) hall 0 srcFl with
                | some fl => some (.struct fl)
                | none => none
              else none
          | _ => none
        else none
      else if (a0 :: rest).any (fun a => a.typ.isArray) then
        if hallarr : ∀ a ∈ a0 :: rest, a.typ.isArray = true then
          match commonSuperTypeList ((a0 :: rest).map elementArg)
              treat_parameters_as_literals with
          | some t => some (.array t)
          | none => none
        else none
      else
        pickBestCandidate (a0 :: rest)
          (candidateTypes (a0 :: rest) treat_parameters_as_literals)
termination_by (2 * setWeight args + 1, 0)
decreasing_by
  · simp_wf
    subst hargs
    apply Prod.Lex.left
    omega
  · simp_wf
    apply Prod.Lex.left
    have hlt := setWeight_map_lt (a0 :: rest) elementArg (by simp)
      (fun a ha => elementArg_tsize_lt a (hallarr a ha))
    simp only [List.map_cons] at hlt
    omega

/-- Modelled from the spec: the per-field recursion of
`Coercer::GetCommonStructSuperType` (§4.7, header lines 168–176): field
`i`'s supertype is the common supertype of the members' field-`i`
arguments, and the resulting field keeps the alias of the first non-NULL
member's struct type (the alias source whose field list drives this
walk). -/
def commonStructFields (members : List InputArgumentType) (hne : members ≠ [])
    (hstr : ∀ a ∈ members, a.typ.isStruct = true) (i : Nat) (srcFl : FieldList) :
    Option FieldList :=
  match srcFl with
  | .nil => some .nil
  | .cons name _ rest =>
      match commonSuperTypeList (members.map (fun a => fieldArgAt a i)) true with
      | none => none
      | some t =>
          match commonStructFields members hne hstr (i + 1) rest with
          | none => none
          | some fl2 => some (.cons name t fl2)
termination_by (2 * setWeight members, srcFl.tsize)
decreasing_by
  · simp_wf
    apply Prod.Lex.left
    have := setWeight_map_lt members (fun a => fieldArgAt a i) hne
      (fun a ha => fieldArgAt_tsize_lt a i (hstr a ha))
    omega
  · simp_wf
    apply Prod.Lex.right
    simp only [FieldList.tsize]
    omega

end

/-- Modelled from the spec: `Coercer::GetCommonSuperTypeImpl` (header lines
104–112) over the argument set. -/
def GetCommonSuperTypeImpl (argument_set : InputArgumentTypeSet)
    (treat_parameters_as_literals : Bool) : Option SqlType :=
  commonSuperTypeList argument_set.arguments treat_parameters_as_literals

/-- Modelled from the spec: `Coercer::GetCommonSuperType` (header lines
69–82): the supertype analysis with parameters treated like literals, i.e.
candidates come from the general-expression members (§4.7's flexible =
literal/parameter partition). -/
def GetCommonSuperType (argument_set : InputArgumentTypeSet) : Option SqlType :=
  GetCommonSuperTypeImpl argument_set true

/-- Modelled from the spec: `Coercer::GetCommonStructSuperType` (header
lines 168–176): NULL if any argument is non-struct; otherwise each field
position's supertype is computed recursively and the field aliases come
from the first non-NULL argument. -/
def GetCommonStructSuperType (argument_set : InputArgumentTypeSet) : Option SqlType :=
  match argument_set.arguments with
  | [] => none
  | a0 :: rest =>
      if hall : ∀ a ∈ a0 :: rest, a.typ.isStruct = true then
        match ((listFirstNonNull (a0 :: rest)).getD a0).typ with
        | .struct srcFl =>
            if ∀ a ∈ a0 :: rest, a.typ.fieldCount = srcFl.count then
              match commonStructFields (a0 :: rest) (by simp) hall 0 srcFl with
              | some fl => some (.struct fl)
              | none => none
            else none
        | _ => none
      else none

/-- Modelled from the spec: `Coercer::GetCommonArraySuperType` (header
lines 178–183): NULL if any argument is non-array; otherwise the common
supertype of the element arguments wrapped in a freshly built array
type. -/
def GetCommonArraySuperType (argument_set : InputArgumentTypeSet)
    (treat_query_parameters_as_literals : Bool) : Option SqlType :=
  match argument_set.arguments with
  | [] => none
  | a0 :: rest =>
      if ∀ a ∈ a0 :: rest, a.typ.isArray = true then
        match commonSuperTypeList ((a0 :: rest).map elementArg)
            treat_query_parameters_as_literals with
        | some t => some (.array t)
        | none => none
      else none

end Coercer

/-! ### Claim theorems -/

/-- C9: for every type `T`, `CoercesTo` applied to a non-literal argument of
type `T` with target type `T` succeeds, for implicit and explicit coercion
alike, and contributes exactly 0 to the `SignatureMatchResult` distance. -/
theorem C9_reflexivity (t : SqlType) (e : Bool) (r : SignatureMatchResult) :
    Coercer.CoercesTo (.mk t .expression .nonLiteralFields) t e r =
      (true, r.addSuccess 0) ∧
    (r.addSuccess 0).distance = r.distance :=
  ⟨Coercer.CoercesTo_same t .expression .nonLiteralFields t e r rfl, by
    simp [SignatureMatchResult.addSuccess]⟩

/-- C2: whenever `CoercesTo` succeeds, `AssignableTo` succeeds on the same
input, and `AssignableTo` succeeds exactly when `CoercesTo` succeeds or the
pair of types is one of the two narrowing pairs INT64→INT32 and
UINT64→UINT32 (even when `CoercesTo` fails for those pairs). -/
theorem C2_assignableTo_characterization (a : InputArgumentType)
    (to_type : SqlType) (e : Bool) (r : SignatureMatchResult) :
    ((Coercer.CoercesTo a to_type e r).1 = true →
      (Coercer.AssignableTo a to_type e r).1 = true) ∧
    ((Coercer.AssignableTo a to_type e r).1 = true ↔
      ((Coercer.CoercesTo a to_type e r).1 = true ∨
        (a.typ = SqlType.int64 ∧ to_type = SqlType.int32) ∨
        (a.typ = SqlType.uint64 ∧ to_type = SqlType.uint32))) := by
  have hchar : (Coercer.AssignableTo a to_type e r).1 = true ↔
      ((Coercer.CoercesTo a to_type e r).1 = true ∨
        (a.typ = SqlType.int64 ∧ to_type = SqlType.int32) ∨
        (a.typ = SqlType.uint64 ∧ to_type = SqlType.uint32)) := by
    rcases hc : Coercer.CoercesTo a to_type e r with ⟨b, r2⟩
    cases b
    · by_cases h1 : ((a.typ == SqlType.int64 && to_type == SqlType.int32) ||
          (a.typ == SqlType.uint64 && to_type == SqlType.uint32)) = true
      · have h2 : (a.typ = SqlType.int64 ∧ to_type = SqlType.int32) ∨
            (a.typ = SqlType.uint64 ∧ to_type = SqlType.uint32) := by
          simpa using h1
        constructor
        · intro _; exact Or.inr h2
        · intro _; simp [Coercer.AssignableTo, hc, h1]
      · have h2 : ¬((a.typ = SqlType.int64 ∧ to_type = SqlType.int32) ∨
            (a.typ = SqlType.uint64 ∧ to_type = SqlType.uint32)) := by
          simpa using h1
        have hL : (Coercer.AssignableTo a to_type e r).1 = false := by
          simp [Coercer.AssignableTo, hc, h1]
        constructor
        · intro hA; rw [hL] at hA; exact Bool.noConfusion hA
        · rintro (hco | hpq)
          · exact Bool.noConfusion hco
          · exact absurd hpq h2
    · simp [Coercer.AssignableTo, hc]
  exact ⟨fun h => hchar.mpr (Or.inl h), hchar⟩

/-- Witness for C2 at a concrete input: a same-type INT32 coercion succeeds
under `CoercesTo`, hence `AssignableTo` succeeds. -/
theorem C2_assignableTo_characterization_witness :
    (Coercer.AssignableTo (.mk SqlType.int32 .expression .nonLiteralFields)
      SqlType.int32 false SignatureMatchResult.zero).1 = true :=
  (C2_assignableTo_characterization (.mk SqlType.int32 .expression .nonLiteralFields)
      SqlType.int32 false SignatureMatchResult.zero).1
    (by rw [Coercer.CoercesTo_same _ _ _ _ _ _ rfl])

/-- C4: `GetLiteralCoercionCost` is total (Option-valued, with `none` the
distinguished "no coercion" sentinel, never a failure): a NULL value costs
exactly 1 regardless of the target type, and a non-NULL value costs the
pairwise `GetTypeCoercionCost` of its own type against the target. -/
theorem C4_literalCoercionCost (v : Value) (t t2 : SqlType) :
    GetLiteralCoercionCost v t =
      (if v.isNull then some 1 else GetTypeCoercionCost v.typ t) ∧
    (v.isNull = true → GetLiteralCoercionCost v t = some 1 ∧
      GetLiteralCoercionCost v t = GetLiteralCoercionCost v t2) := by
  refine ⟨rfl, fun h => ?_⟩
  simp [GetLiteralCoercionCost, h]

/-- Witness for C4 at a concrete input: a NULL STRING value costs 1 against
BYTES, the same as against TIMESTAMP. -/
theorem C4_literalCoercionCost_witness :
    GetLiteralCoercionCost ⟨SqlType.string, true, 7⟩ SqlType.bytes = some 1 ∧
    GetLiteralCoercionCost ⟨SqlType.string, true, 7⟩ SqlType.bytes =
      GetLiteralCoercionCost ⟨SqlType.string, true, 7⟩ SqlType.timestamp :=
  (C4_literalCoercionCost ⟨SqlType.string, true, 7⟩ SqlType.bytes SqlType.timestamp).2 rfl

/-- C5: `StructCoercesTo` fails whenever the argument struct and the target
struct have different field counts, regardless of per-field coercibility;
with equal field counts its result is exactly the per-field coercion walk,
and it depends only on the field counts and per-position field types, never
on the field-name aliases of either side. -/
theorem C5_structCoercion (fl tl : FieldList) (k : ArgKind) (fargs : FieldArgs)
    (e : Bool) (r : SignatureMatchResult) :
    (fl.count ≠ tl.count →
      (Coercer.StructCoercesTo (.mk (.struct fl) k fargs) (.struct tl) e r).1 = false) ∧
    (fl.count = tl.count →
      Coercer.StructCoercesTo (.mk (.struct fl) k fargs) (.struct tl) e r =
        Coercer.coerceFields fargs 0 fl tl e r) ∧
    (∀ fl2 tl2 : FieldList,
      fl.count = fl2.count → (∀ j, fl.typeAt j = fl2.typeAt j) →
      tl.count = tl2.count → (∀ j, tl.typeAt j = tl2.typeAt j) →
      Coercer.StructCoercesTo (.mk (.struct fl) k fargs) (.struct tl) e r =
        Coercer.StructCoercesTo (.mk (.struct fl2) k fargs) (.struct tl2) e r) := by
  refine ⟨fun h => ?_, fun h => ?_, fun fl2 tl2 hc hT hc2 hT2 => ?_⟩
  · simp [Coercer.StructCoercesTo, Coercer.InputArgumentType.typ_mk,
      InputArgumentType.fieldArgs, h]
  · simp [Coercer.StructCoercesTo, Coercer.InputArgumentType.typ_mk,
      InputArgumentType.fieldArgs, h]
  · by_cases hcc : fl.count = tl.count
    · have hcc2 : fl2.count = tl2.count := by omega
      calc Coercer.StructCoercesTo (.mk (.struct fl) k fargs) (.struct tl) e r
          = Coercer.coerceFields fargs 0 fl tl e r := by
            simp [Coercer.StructCoercesTo, Coercer.InputArgumentType.typ_mk,
              InputArgumentType.fieldArgs, hcc]
        _ = Coercer.coerceFields fargs 0 fl2 tl2 e r :=
            Coercer.coerceFields_typeAt_invariant fl fl2 tl tl2 fargs 0 e r hc hT hc2 hT2
        _ = Coercer.StructCoercesTo (.mk (.struct fl2) k fargs) (.struct tl2) e r := by
            simp [Coercer.StructCoercesTo, Coercer.InputArgumentType.typ_mk,
              InputArgumentType.fieldArgs, hcc2]
    · have hcc2 : fl2.count ≠ tl2.count := by omega
      simp [Coercer.StructCoercesTo, Coercer.InputArgumentType.typ_mk,
        InputArgumentType.fieldArgs, hcc, hcc2]

/-- Witness for C5 at concrete inputs: a one-field struct never
`StructCoercesTo` a zero-field struct, even though there is no field to
fail; and renaming the single field of both sides changes nothing. -/
theorem C5_structCoercion_witness :
    (Coercer.StructCoercesTo
      (.mk (.struct (.cons "a" .int32 .nil)) .expression .nonLiteralFields)
      (.struct .nil) false SignatureMatchResult.zero).1 = false ∧
    Coercer.StructCoercesTo
        (.mk (.struct (.cons "a" .int32 .nil)) .expression .nonLiteralFields)
        (.struct (.cons "x" .int64 .nil)) false SignatureMatchResult.zero =
      Coercer.StructCoercesTo
        (.mk (.struct (.cons "b" .int32 .nil)) .expression .nonLiteralFields)
        (.struct (.cons "y" .int64 .nil)) false SignatureMatchResult.zero :=
  ⟨(C5_structCoercion (.cons "a" .int32 .nil) .nil .expression .nonLiteralFields
      false SignatureMatchResult.zero).1 (by decide),
   (C5_structCoercion (.cons "a" .int32 .nil) (.cons "x" .int64 .nil) .expression
      .nonLiteralFields false SignatureMatchResult.zero).2.2
      (.cons "b" .int32 .nil) (.cons "y" .int64 .nil) (by decide)
      (by intro j; cases j <;> rfl) (by decide) (by intro j; cases j <;> rfl)⟩

/-- C3 counterexample: two array types whose element types are coercible but
not *equal* (they differ only in a struct field alias, so they are
equivalent): a general (non-literal, non-parameter) argument of the first
array type DOES implicitly coerce to the second, contradicting the claim
that coercible-but-unequal element types block implicit coercion — the
actual requirement is equivalence, not equality. -/
theorem C3_array_counterexample :
    (SqlType.struct (.cons "a" .int64 .nil) ≠ SqlType.struct (.cons "b" .int64 .nil)) ∧
    ((Coercer.CoercesTo
        (.mk (SqlType.struct (.cons "a" .int64 .nil)) .expression .nonLiteralFields)
        (SqlType.struct (.cons "b" .int64 .nil)) false SignatureMatchResult.zero).1
      = true) ∧
    ((Coercer.CoercesTo
        (.mk (.array (SqlType.struct (.cons "a" .int64 .nil))) .expression .nonLiteralFields)
        (.array (SqlType.struct (.cons "b" .int64 .nil))) false
        SignatureMatchResult.zero).1 = true) := by
  refine ⟨by decide, ?_, ?_⟩
  · simp [Coercer.CoercesTo, Coercer.coerceFields, effectiveFieldArg,
      Coercer.TypeCoercesTo, simpleCost, simpleImplicitCost, InputArgumentType.typ,
      InputArgumentType.isLiteralNull, FieldList.count, SqlType.equivalent,
      SqlType.stripFieldAliases, FieldList.stripFieldAliases]
  · simp [Coercer.CoercesTo, SqlType.equivalent, SqlType.stripFieldAliases,
      FieldList.stripFieldAliases, InputArgumentType.typ, InputArgumentType.isLiteralNull]

/-- C3 as amended: for array types whose element types are not *equivalent*
(equal up to field aliases), implicit coercion of a general expression
fails, while under explicit coercion, or for a non-NULL literal or a
parameter argument, the array coercion is exactly the recursive coercion of
the element types (so it succeeds whenever the element types coerce, with
the cost derived from the element coercion). -/
theorem C3_array_asymmetry (eF eT : SqlType) (r : SignatureMatchResult)
    (hne : SqlType.equivalent eF eT = false) :
    ((Coercer.CoercesTo (.mk (.array eF) .expression .nonLiteralFields)
        (.array eT) false r).1 = false) ∧
    (∀ (k : ArgKind) (fargs : FieldArgs),
      (InputArgumentType.mk (.array eF) k fargs).isLiteralNull = false →
      Coercer.CoercesTo (.mk (.array eF) k fargs) (.array eT) true r =
        Coercer.CoercesTo (.mk eF .expression .nonLiteralFields) eT true r) ∧
    (∀ (v : Value) (fargs : FieldArgs), v.isNull = false →
      Coercer.CoercesTo (.mk (.array eF) (.literal v) fargs) (.array eT) false r =
        Coercer.CoercesTo (.mk eF .expression .nonLiteralFields) eT false r) ∧
    (∀ fargs : FieldArgs,
      Coercer.CoercesTo (.mk (.array eF) .parameter fargs) (.array eT) false r =
        Coercer.CoercesTo (.mk eF .expression .nonLiteralFields) eT false r) := by
  have heqvA : SqlType.equivalent (.array eF) (.array eT) = false := by
    rw [SqlType.equivalent_array]; exact hne
  have harr : SqlType.array eF ≠ SqlType.array eT := by
    intro he
    rw [he, SqlType.equivalent_refl] at heqvA
    exact Bool.noConfusion heqvA
  refine ⟨?_, fun k fargs hnl => ?_, fun v fargs hv => ?_, fun fargs => ?_⟩
  · rw [Coercer.CoercesTo_arrayPath eF .expression .nonLiteralFields (.array eT)
      false r harr (by simp [InputArgumentType.isLiteralNull])]
    simp [Coercer.ArrayCoercesTo, Coercer.InputArgumentType.typ_mk, heqvA,
      InputArgumentType.isLiteral, InputArgumentType.isParameter]
  · rw [Coercer.CoercesTo_arrayPath eF k fargs (.array eT) true r harr hnl]
    simp [Coercer.ArrayCoercesTo, Coercer.InputArgumentType.typ_mk, heqvA]
  · rw [Coercer.CoercesTo_arrayPath eF (.literal v) fargs (.array eT) false r harr
      (by simp [InputArgumentType.isLiteralNull, hv])]
    simp [Coercer.ArrayCoercesTo, Coercer.InputArgumentType.typ_mk, heqvA,
      InputArgumentType.isLiteral]
  · rw [Coercer.CoercesTo_arrayPath eF .parameter fargs (.array eT) false r harr
      (by simp [InputArgumentType.isLiteralNull])]
    simp [Coercer.ArrayCoercesTo, Coercer.InputArgumentType.typ_mk, heqvA,
      InputArgumentType.isLiteral, InputArgumentType.isParameter]

/-- Witness for C3's amended statement at INT32/INT64 element types. -/
theorem C3_array_asymmetry_witness :
    ((Coercer.CoercesTo (.mk (.array .int32) .expression .nonLiteralFields)
        (.array .int64) false SignatureMatchResult.zero).1 = false) ∧
    Coercer.CoercesTo (.mk (.array .int32) .parameter .nonLiteralFields)
        (.array .int64) false SignatureMatchResult.zero =
      Coercer.CoercesTo (.mk SqlType.int32 .expression .nonLiteralFields)
        SqlType.int64 false SignatureMatchResult.zero :=
  ⟨(C3_array_asymmetry .int32 .int64 SignatureMatchResult.zero (by decide)).1,
   (C3_array_asymmetry .int32 .int64 SignatureMatchResult.zero (by decide)).2.2.2
      .nonLiteralFields⟩

/-! ### Payload independence (C10) -/

theorem InputArgumentType.erasePayloads_typ (a : InputArgumentType) :
    a.erasePayloads.typ = a.typ := by
  obtain ⟨t, k, f⟩ := a
  rfl

theorem InputArgumentType.erasePayloads_isLiteralNull (a : InputArgumentType) :
    a.erasePayloads.isLiteralNull = a.isLiteralNull := by
  obtain ⟨t, k, f⟩ := a
  cases k <;> rfl

theorem ArgKind.erasePayload_isLiteral (k : ArgKind) :
    (ArgKind.erasePayload k).isLiteral = k.isLiteral := by
  cases k <;> rfl

theorem ArgKind.erasePayload_isParameter (k : ArgKind) :
    (ArgKind.erasePayload k).isParameter = k.isParameter := by
  cases k <;> rfl

theorem ArgList.atIdx_erasePayloads : ∀ (l : ArgList) (i : Nat),
    ArgList.atIdx (ArgList.erasePayloads l) i =
      Option.map InputArgumentType.erasePayloads (ArgList.atIdx l i)
  | .nil, _ => rfl
  | .cons a rest, 0 => rfl
  | .cons a rest, i + 1 => ArgList.atIdx_erasePayloads rest i

theorem effectiveFieldArg_erase (fargs : FieldArgs) (t : SqlType) (i : Nat) :
    effectiveFieldArg (FieldArgs.erasePayloads fargs) t i =
      InputArgumentType.erasePayloads (effectiveFieldArg fargs t i) := by
  cases fargs with
  | nonLiteralFields => rfl
  | literalFields l =>
      simp only [effectiveFieldArg, FieldArgs.erasePayloads, ArgList.atIdx_erasePayloads]
      cases hx : ArgList.atIdx l i with
      | none => rfl
      | some p =>
          simp only [Option.map_some']
          rw [InputArgumentType.erasePayloads_typ]
          by_cases hb : (p.typ == t) = true
          · simp [hb]
          · simp [hb, InputArgumentType.erasePayloads, ArgKind.erasePayload,
              FieldArgs.erasePayloads]

namespace Coercer

/-- `CoercesTo` never inspects literal payloads: erasing them leaves the
whole result (verdict and accumulator updates) unchanged. -/
theorem CoercesTo_erasePayloads (a : InputArgumentType) (to_type : SqlType)
    (e : Bool) (r : SignatureMatchResult) :
    CoercesTo a to_type e r = CoercesTo a.erasePayloads to_type e r := by
  refine CoercesTo.induct
    (fun a to_type e r =>
      CoercesTo a to_type e r = CoercesTo a.erasePayloads to_type e r)
    (fun fargs i fl tl e r =>
      coerceFields fargs i fl tl e r =
        coerceFields (FieldArgs.erasePayloads fargs) i fl tl e r)
    ?_ ?_ ?_ ?_ ?_ ?_ ?_ ?_ ?_ ?_ ?_ ?_ ?_ ?_ ?_ a to_type e r
  · intro a t e r h
    obtain ⟨ty, k, f⟩ := a
    have he : ty = t := eq_of_beq h
    simp only [InputArgumentType.erasePayloads]
    rw [CoercesTo_same ty k f t e r he,
      CoercesTo_same ty (ArgKind.erasePayload k) (FieldArgs.erasePayloads f) t e r he]
  · intro a t e r hne hnull
    obtain ⟨ty, k, f⟩ := a
    cases k with
    | literal v =>
        have hv : v.isNull = true := hnull
        have hne2 : ty ≠ t := fun he => hne (by simp [InputArgumentType.typ, he])
        simp only [InputArgumentType.erasePayloads, ArgKind.erasePayload]
        rw [CoercesTo_nullLit ty v f t e r hne2 hv,
          CoercesTo_nullLit ty ⟨v.typ, v.isNull, 0⟩ (FieldArgs.erasePayloads f) t e r
            hne2 hv]
    | parameter => exact absurd hnull (by simp [InputArgumentType.isLiteralNull])
    | expression => exact absurd hnull (by simp [InputArgumentType.isLiteralNull])
  · intro e r fl k fargs tl hcount hnull hne ih
    have hne2 : SqlType.struct fl ≠ SqlType.struct tl :=
      fun he => hne (by simp [InputArgumentType.typ, he])
    have hnull2 : (InputArgumentType.mk (.struct fl) k fargs).isLiteralNull = false := by
      simpa using hnull
    have hnull3 : (InputArgumentType.mk (.struct fl) (ArgKind.erasePayload k)
        (FieldArgs.erasePayloads fargs)).isLiteralNull = false := by
      cases k <;> simpa [InputArgumentType.isLiteralNull, ArgKind.erasePayload]
        using hnull2
    simp only [InputArgumentType.erasePayloads]
    rw [CoercesTo_structPath fl k fargs _ e r hne2 hnull2,
      CoercesTo_structPath fl (ArgKind.erasePayload k) (FieldArgs.erasePayloads fargs)
        _ e r hne2 hnull3]
    simp only [StructCoercesTo, InputArgumentType.typ, InputArgumentType.fieldArgs,
      hcount, if_true]
    exact ih
  · intro e r fl k fargs tl hcount hnull hne
    have hne2 : SqlType.struct fl ≠ SqlType.struct tl :=
      fun he => hne (by simp [InputArgumentType.typ, he])
    have hnull2 : (InputArgumentType.mk (.struct fl) k fargs).isLiteralNull = false := by
      simpa using hnull
    have hnull3 : (InputArgumentType.mk (.struct fl) (ArgKind.erasePayload k)
        (FieldArgs.erasePayloads fargs)).isLiteralNull = false := by
      cases k <;> simpa [InputArgumentType.isLiteralNull, ArgKind.erasePayload]
        using hnull2
    simp only [InputArgumentType.erasePayloads]
    rw [CoercesTo_structPath fl k fargs _ e r hne2 hnull2,
      CoercesTo_structPath fl (ArgKind.erasePayload k) (FieldArgs.erasePayloads fargs)
        _ e r hne2 hnull3]
    simp [StructCoercesTo, InputArgumentType.typ, InputArgumentType.fieldArgs, hcount]
  · intro t e r fl k fargs hnotstruct hne hnull
    have hne2 : SqlType.struct fl ≠ t := fun he => hne (by simp [InputArgumentType.typ, he])
    have hnull2 : (InputArgumentType.mk (.struct fl) k fargs).isLiteralNull = false := by
      simpa using hnull
    have hnull3 : (InputArgumentType.mk (.struct fl) (ArgKind.erasePayload k)
        (FieldArgs.erasePayloads fargs)).isLiteralNull = false := by
      cases k <;> simpa [InputArgumentType.isLiteralNull, ArgKind.erasePayload]
        using hnull2
    simp only [InputArgumentType.erasePayloads]
    rw [CoercesTo_structPath fl k fargs t e r hne2 hnull2,
      CoercesTo_structPath fl (ArgKind.erasePayload k) (FieldArgs.erasePayloads fargs)
        t e r hne2 hnull3]
    cases t
    case struct tl => exact absurd rfl (hnotstruct tl)
    all_goals simp [StructCoercesTo, InputArgumentType.typ]
  · intro e r el k fargs toEl heqv hnull hne
    have hne2 : SqlType.array el ≠ SqlType.array toEl :=
      fun he => hne (by simp [InputArgumentType.typ, he])
    have hnull2 : (InputArgumentType.mk (.array el) k fargs).isLiteralNull = false := by
      simpa using hnull
    have hnull3 : (InputArgumentType.mk (.array el) (ArgKind.erasePayload k)
        (FieldArgs.erasePayloads fargs)).isLiteralNull = false := by
      cases k <;> simpa [InputArgumentType.isLiteralNull, ArgKind.erasePayload]
        using hnull2
    simp only [InputArgumentType.erasePayloads]
    rw [CoercesTo_arrayPath el k fargs _ e r hne2 hnull2,
      CoercesTo_arrayPath el (ArgKind.erasePayload k) (FieldArgs.erasePayloads fargs)
        _ e r hne2 hnull3]
    simp [ArrayCoercesTo, InputArgumentType.typ, heqv]
  · intro e r el k fargs toEl heqv hflex hnull hne ih
    have hne2 : SqlType.array el ≠ SqlType.array toEl :=
      fun he => hne (by simp [InputArgumentType.typ, he])
    have hnull2 : (InputArgumentType.mk (.array el) k fargs).isLiteralNull = false := by
      simpa using hnull
    have hnull3 : (InputArgumentType.mk (.array el) (ArgKind.erasePayload k)
        (FieldArgs.erasePayloads fargs)).isLiteralNull = false := by
      cases k <;> simpa [InputArgumentType.isLiteralNull, ArgKind.erasePayload]
        using hnull2
    simp only [InputArgumentType.erasePayloads]
    rw [CoercesTo_arrayPath el k fargs _ e r hne2 hnull2,
      CoercesTo_arrayPath el (ArgKind.erasePayload k) (FieldArgs.erasePayloads fargs)
        _ e r hne2 hnull3]
    have hflex2 : (e || (InputArgumentType.mk (.array el) k fargs).isLiteral ||
        (InputArgumentType.mk (.array el) k fargs).isParameter) = true := by
      cases k <;> simpa [InputArgumentType.isLiteral, InputArgumentType.isParameter,
        ArgKind.isLiteral, ArgKind.isParameter] using hflex
    have hflex3 : (e || (InputArgumentType.mk (.array el) (ArgKind.erasePayload k)
        (FieldArgs.erasePayloads fargs)).isLiteral ||
        (InputArgumentType.mk (.array el) (ArgKind.erasePayload k)
          (FieldArgs.erasePayloads fargs)).isParameter) = true := by
      cases k <;> simpa [InputArgumentType.isLiteral, InputArgumentType.isParameter,
        ArgKind.isLiteral, ArgKind.isParameter, ArgKind.erasePayload] using hflex2
    simp only [ArrayCoercesTo, InputArgumentType.typ, heqv, Bool.false_eq_true,
      if_false, hflex2, hflex3, if_true]
  · intro e r el k fargs toEl heqv hflex hnull hne
    have hne2 : SqlType.array el ≠ SqlType.array toEl :=
      fun he => hne (by simp [InputArgumentType.typ, he])
    have hnull2 : (InputArgumentType.mk (.array el) k fargs).isLiteralNull = false := by
      simpa using hnull
    have hnull3 : (InputArgumentType.mk (.array el) (ArgKind.erasePayload k)
        (FieldArgs.erasePayloads fargs)).isLiteralNull = false := by
      cases k <;> simpa [InputArgumentType.isLiteralNull, ArgKind.erasePayload]
        using hnull2
    simp only [InputArgumentType.erasePayloads]
    rw [CoercesTo_arrayPath el k fargs _ e r hne2 hnull2,
      CoercesTo_arrayPath el (ArgKind.erasePayload k) (FieldArgs.erasePayloads fargs)
        _ e r hne2 hnull3]
    have hflex2 : (e || (InputArgumentType.mk (.array el) k fargs).isLiteral ||
        (InputArgumentType.mk (.array el) k fargs).isParameter) = false := by
      cases k <;> simpa [InputArgumentType.isLiteral, InputArgumentType.isParameter,
        ArgKind.isLiteral, ArgKind.isParameter] using hflex
    have hflex3 : (e || (InputArgumentType.mk (.array el) (ArgKind.erasePayload k)
        (FieldArgs.erasePayloads fargs)).isLiteral ||
        (InputArgumentType.mk (.array el) (ArgKind.erasePayload k)
          (FieldArgs.erasePayloads fargs)).isParameter) = false := by
      cases k <;> simpa [InputArgumentType.isLiteral, InputArgumentType.isParameter,
        ArgKind.isLiteral, ArgKind.isParameter, ArgKind.erasePayload] using hflex2
    simp [ArrayCoercesTo, InputArgumentType.typ, heqv, hflex2, hflex3]
  · intro t e r el k fargs hnotarr hne hnull
    have hne2 : SqlType.array el ≠ t := fun he => hne (by simp [InputArgumentType.typ, he])
    have hnull2 : (InputArgumentType.mk (.array el) k fargs).isLiteralNull = false := by
      simpa using hnull
    have hnull3 : (InputArgumentType.mk (.array el) (ArgKind.erasePayload k)
        (FieldArgs.erasePayloads fargs)).isLiteralNull = false := by
      cases k <;> simpa [InputArgumentType.isLiteralNull, ArgKind.erasePayload]
        using hnull2
    simp only [InputArgumentType.erasePayloads]
    rw [CoercesTo_arrayPath el k fargs t e r hne2 hnull2,
      CoercesTo_arrayPath el (ArgKind.erasePayload k) (FieldArgs.erasePayloads fargs)
        t e r hne2 hnull3]
    cases t
    case array toEl => exact absurd rfl (hnotarr toEl)
    all_goals simp [ArrayCoercesTo, InputArgumentType.typ]
  · intro e r ty v fargs t hns1 hns2 hna1 hna2 hnull hne
    have hne2 : ty ≠ t := fun he => hne (by simp [InputArgumentType.typ, he])
    have hv : v.isNull = false := by simpa [InputArgumentType.isLiteralNull] using hnull
    have hs : ty.isStruct = false := by
      cases ty <;> first | rfl | exact absurd rfl (hns2 _)
    have ha : ty.isArray = false := by
      cases ty <;> first | rfl | exact absurd rfl (hna2 _)
    simp only [InputArgumentType.erasePayloads, ArgKind.erasePayload]
    rw [CoercesTo_literalPath ty v fargs t e r hs ha hne2 hv,
      CoercesTo_literalPath ty ⟨v.typ, v.isNull, 0⟩ (FieldArgs.erasePayloads fargs)
        t e r hs ha hne2 hv]
    simp [LiteralCoercesTo]
  · intro e r ty fargs t hns1 hns2 hna1 hna2 hnull hne
    have hne2 : ty ≠ t := fun he => hne (by simp [InputArgumentType.typ, he])
    have hs : ty.isStruct = false := by
      cases ty <;> first | rfl | exact absurd rfl (hns2 _)
    have ha : ty.isArray = false := by
      cases ty <;> first | rfl | exact absurd rfl (hna2 _)
    simp only [InputArgumentType.erasePayloads, ArgKind.erasePayload]
    rw [CoercesTo_parameterPath ty fargs t e r hs ha hne2,
      CoercesTo_parameterPath ty (FieldArgs.erasePayloads fargs) t e r hs ha hne2]
  · intro e r ty fargs t hns1 hns2 hna1 hna2 hnull hne
    have hne2 : ty ≠ t := fun he => hne (by simp [InputArgumentType.typ, he])
    have hs : ty.isStruct = false := by
      cases ty <;> first | rfl | exact absurd rfl (hns2 _)
    have ha : ty.isArray = false := by
      cases ty <;> first | rfl | exact absurd rfl (hna2 _)
    simp only [InputArgumentType.erasePayloads, ArgKind.erasePayload]
    rw [CoercesTo_expressionPath ty fargs t e r hs ha hne2,
      CoercesTo_expressionPath ty (FieldArgs.erasePayloads fargs) t e r hs ha hne2]
  · intro fargs i e r n1 t fr n2 t2 tr rmid hx ih1 ih2
    rw [coerceFields_cons, coerceFields_cons, hx, effectiveFieldArg_erase, ← ih1, hx]
    exact ih2
  · intro fargs i e r n1 t fr n2 t2 tr rmid hx ih1
    rw [coerceFields_cons, coerceFields_cons, hx, effectiveFieldArg_erase, ← ih1, hx]
  · intro fargs i fl tl e r hnotcons
    cases fl with
    | nil => rw [coerceFields_nil_left, coerceFields_nil_left]
    | cons n t fr =>
        cases tl with
        | nil => rw [coerceFields_nil_right, coerceFields_nil_right]
        | cons n2 t2 tr => exact absurd rfl (hnotcons n t fr n2 t2 tr rfl)

end Coercer

/-- C10 counterexample: two literal arguments with the same type (STRING)
and the same literal tag, but embedding different values — one NULL, one
non-NULL — receive different `CoercesTo` verdicts against BYTES, so the
coercion decision does depend on the embedded literal value (through its
NULL-ness). -/
theorem C10_value_dependence_counterexample :
    ((Coercer.CoercesTo
        (.mk .string (.literal ⟨.string, true, 0⟩) .nonLiteralFields)
        .bytes false SignatureMatchResult.zero).1 = true) ∧
    ((Coercer.CoercesTo
        (.mk .string (.literal ⟨.string, false, 0⟩) .nonLiteralFields)
        .bytes false SignatureMatchResult.zero).1 = false) := by
  constructor
  · simp [Coercer.CoercesTo, InputArgumentType.typ, InputArgumentType.isLiteralNull]
  · simp [Coercer.CoercesTo, Coercer.LiteralCoercesTo, simpleCost, simpleImplicitCost,
      InputArgumentType.typ, InputArgumentType.isLiteralNull]

/-- C10 as amended: for two arguments that agree after erasing literal
payloads (same type, same literal/parameter tag, same NULL flags, same
field-argument structure, differing only in the embedded literal contents),
`CoercesTo` and `AssignableTo` return identical verdicts and make identical
updates to the `SignatureMatchResult`. -/
theorem C10_payload_independence (a b : InputArgumentType) (to_type : SqlType)
    (e : Bool) (r : SignatureMatchResult)
    (h : a.erasePayloads = b.erasePayloads) :
    Coercer.CoercesTo a to_type e r = Coercer.CoercesTo b to_type e r ∧
    Coercer.AssignableTo a to_type e r = Coercer.AssignableTo b to_type e r := by
  have hc : Coercer.CoercesTo a to_type e r = Coercer.CoercesTo b to_type e r := by
    rw [Coercer.CoercesTo_erasePayloads a, Coercer.CoercesTo_erasePayloads b, h]
  have ht : a.typ = b.typ := by
    rw [← InputArgumentType.erasePayloads_typ a, ← InputArgumentType.erasePayloads_typ b, h]
  refine ⟨hc, ?_⟩
  simp [Coercer.AssignableTo, hc, ht]

/-- Witness for C10's amended statement: two INT64 literals with different
payloads produce identical results against INT32. -/
theorem C10_payload_independence_witness :
    Coercer.CoercesTo (.mk .int64 (.literal ⟨.int64, false, 1⟩) .nonLiteralFields)
        .int32 false SignatureMatchResult.zero =
      Coercer.CoercesTo (.mk .int64 (.literal ⟨.int64, false, 2⟩) .nonLiteralFields)
        .int32 false SignatureMatchResult.zero ∧
    Coercer.AssignableTo (.mk .int64 (.literal ⟨.int64, false, 1⟩) .nonLiteralFields)
        .int32 false SignatureMatchResult.zero =
      Coercer.AssignableTo (.mk .int64 (.literal ⟨.int64, false, 2⟩) .nonLiteralFields)
        .int32 false SignatureMatchResult.zero :=
  C10_payload_independence
    (.mk .int64 (.literal ⟨.int64, false, 1⟩) .nonLiteralFields)
    (.mk .int64 (.literal ⟨.int64, false, 2⟩) .nonLiteralFields)
    .int32 false SignatureMatchResult.zero rfl

/-! ### Explicit coercion is a superset of implicit coercion (C7) -/

theorem simpleCost_mono (x y : SqlType) (c : Nat)
    (h : simpleCost x y false = some c) : simpleCost x y true = some c := by
  unfold simpleCost at h ⊢
  by_cases hxy : (x == y) = true
  · simpa [hxy] using h
  · rw [if_neg hxy] at h
    rw [if_neg hxy]
    rcases him : simpleImplicitCost x y with _ | c2
    · rw [him] at h
      simp at h
    · rw [him] at h
      simpa using h

namespace Coercer

/-- If an argument coerces implicitly, it also coerces explicitly (with any
accumulator). -/
theorem CoercesTo_explicit_superset (a : InputArgumentType) (to_type : SqlType)
    (r : SignatureMatchResult) :
    ∀ r2, (CoercesTo a to_type false r).1 = true →
      (CoercesTo a to_type true r2).1 = true := by
  refine CoercesTo.induct
    (fun a to_type e r => ∀ r2, (CoercesTo a to_type false r).1 = true →
      (CoercesTo a to_type true r2).1 = true)
    (fun fargs i fl tl e r => ∀ r2,
      (coerceFields fargs i fl tl false r).1 = true →
      (coerceFields fargs i fl tl true r2).1 = true)
    ?_ ?_ ?_ ?_ ?_ ?_ ?_ ?_ ?_ ?_ ?_ ?_ ?_ ?_ ?_ a to_type false r
  · intro a t e r h r2 hh
    obtain ⟨ty, k, f⟩ := a
    rw [CoercesTo_same ty k f t true r2 (eq_of_beq h)]
  · intro a t e r hne hnull r2 hh
    obtain ⟨ty, k, f⟩ := a
    cases k with
    | literal v =>
        have hv : v.isNull = true := hnull
        have hne2 : ty ≠ t := fun he => hne (by simp [InputArgumentType.typ, he])
        rw [CoercesTo_nullLit ty v f t true r2 hne2 hv]
    | parameter => exact absurd hnull (by simp [InputArgumentType.isLiteralNull])
    | expression => exact absurd hnull (by simp [InputArgumentType.isLiteralNull])
  · intro e r fl k fargs tl hcount hnull hne ih r2 hh
    have hne2 : SqlType.struct fl ≠ SqlType.struct tl :=
      fun he => hne (by simp [InputArgumentType.typ, he])
    have hnull2 : (InputArgumentType.mk (.struct fl) k fargs).isLiteralNull = false := by
      simpa using hnull
    rw [CoercesTo_structPath fl k fargs _ false r hne2 hnull2] at hh
    rw [CoercesTo_structPath fl k fargs _ true r2 hne2 hnull2]
    simp only [StructCoercesTo, InputArgumentType.typ, InputArgumentType.fieldArgs,
      hcount, if_true] at hh ⊢
    exact ih r2 hh
  · intro e r fl k fargs tl hcount hnull hne r2 hh
    have hne2 : SqlType.struct fl ≠ SqlType.struct tl :=
      fun he => hne (by simp [InputArgumentType.typ, he])
    have hnull2 : (InputArgumentType.mk (.struct fl) k fargs).isLiteralNull = false := by
      simpa using hnull
    rw [CoercesTo_structPath fl k fargs _ false r hne2 hnull2] at hh
    simp [StructCoercesTo, InputArgumentType.typ, InputArgumentType.fieldArgs,
      hcount] at hh
  · intro t e r fl k fargs hnotstruct hne hnull r2 hh
    have hne2 : SqlType.struct fl ≠ t := fun he => hne (by simp [InputArgumentType.typ, he])
    have hnull2 : (InputArgumentType.mk (.struct fl) k fargs).isLiteralNull = false := by
      simpa using hnull
    rw [CoercesTo_structPath fl k fargs t false r hne2 hnull2] at hh
    cases t
    case struct tl => exact absurd rfl (hnotstruct tl)
    all_goals simp [StructCoercesTo, InputArgumentType.typ] at hh
  · intro e r el k fargs toEl heqv hnull hne r2 hh
    have hne2 : SqlType.array el ≠ SqlType.array toEl :=
      fun he => hne (by simp [InputArgumentType.typ, he])
    have hnull2 : (InputArgumentType.mk (.array el) k fargs).isLiteralNull = false := by
      simpa using hnull
    rw [CoercesTo_arrayPath el k fargs _ true r2 hne2 hnull2]
    simp [ArrayCoercesTo, InputArgumentType.typ, heqv]
  · intro e r el k fargs toEl heqv hflex hnull hne ih r2 hh
    have hne2 : SqlType.array el ≠ SqlType.array toEl :=
      fun he => hne (by simp [InputArgumentType.typ, he])
    have hnull2 : (InputArgumentType.mk (.array el) k fargs).isLiteralNull = false := by
      simpa using hnull
    rw [CoercesTo_arrayPath el k fargs _ false r hne2 hnull2] at hh
    rw [CoercesTo_arrayPath el k fargs _ true r2 hne2 hnull2]
    by_cases hkp : (k.isLiteral || k.isParameter) = true
    · have himp : (false || (InputArgumentType.mk (.array el) k fargs).isLiteral ||
          (InputArgumentType.mk (.array el) k fargs).isParameter) = true := by
        cases k <;> simp_all [InputArgumentType.isLiteral, InputArgumentType.isParameter,
          ArgKind.isLiteral, ArgKind.isParameter]
      simp only [ArrayCoercesTo, InputArgumentType.typ, heqv, Bool.false_eq_true,
        if_false, himp, if_true] at hh
      simp only [ArrayCoercesTo, InputArgumentType.typ, heqv, Bool.false_eq_true,
        if_false, Bool.true_or, if_true]
      exact ih r2 hh
    · have hL : (InputArgumentType.mk (.array el) k fargs).isLiteral = false := by
        cases k <;> simp_all [InputArgumentType.isLiteral, ArgKind.isLiteral,
          ArgKind.isParameter]
      have hP : (InputArgumentType.mk (.array el) k fargs).isParameter = false := by
        cases k <;> simp_all [InputArgumentType.isParameter, ArgKind.isLiteral,
          ArgKind.isParameter]
      simp [ArrayCoercesTo, InputArgumentType.typ, heqv, hL, hP] at hh
  · intro e r el k fargs toEl heqv hflex hnull hne r2 hh
    have hne2 : SqlType.array el ≠ SqlType.array toEl :=
      fun he => hne (by simp [InputArgumentType.typ, he])
    have hnull2 : (InputArgumentType.mk (.array el) k fargs).isLiteralNull = false := by
      simpa using hnull
    rw [CoercesTo_arrayPath el k fargs _ false r hne2 hnull2] at hh
    have hkp : (InputArgumentType.mk (.array el) k fargs).isLiteral = false ∧
        (InputArgumentType.mk (.array el) k fargs).isParameter = false := by
      cases k <;> simp_all [InputArgumentType.isLiteral, InputArgumentType.isParameter,
        ArgKind.isLiteral, ArgKind.isParameter]
    simp [ArrayCoercesTo, InputArgumentType.typ, heqv, hkp.1, hkp.2] at hh
  · intro t e r el k fargs hnotarr hne hnull r2 hh
    have hne2 : SqlType.array el ≠ t := fun he => hne (by simp [InputArgumentType.typ, he])
    have hnull2 : (InputArgumentType.mk (.array el) k fargs).isLiteralNull = false := by
      simpa using hnull
    rw [CoercesTo_arrayPath el k fargs t false r hne2 hnull2] at hh
    cases t
    case array toEl => exact absurd rfl (hnotarr toEl)
    all_goals simp [ArrayCoercesTo, InputArgumentType.typ] at hh
  · intro e r ty v fargs t hns1 hns2 hna1 hna2 hnull hne r2 hh
    have hne2 : ty ≠ t := fun he => hne (by simp [InputArgumentType.typ, he])
    have hv : v.isNull = false := by simpa [InputArgumentType.isLiteralNull] using hnull
    have hs : ty.isStruct = false := by
      cases ty <;> first | rfl | exact absurd rfl (hns2 _)
    have ha : ty.isArray = false := by
      cases ty <;> first | rfl | exact absurd rfl (hna2 _)
    rw [CoercesTo_literalPath ty v fargs t false r hs ha hne2 hv] at hh
    rw [CoercesTo_literalPath ty v fargs t true r2 hs ha hne2 hv]
    simp only [LiteralCoercesTo, hv, Bool.false_eq_true, if_false] at hh ⊢
    rcases hsc : simpleCost v.typ t false with _ | c
    · rw [hsc] at hh; simp at hh
    · rw [simpleCost_mono v.typ t c hsc]
  · intro e r ty fargs t hns1 hns2 hna1 hna2 hnull hne r2 hh
    have hne2 : ty ≠ t := fun he => hne (by simp [InputArgumentType.typ, he])
    have hs : ty.isStruct = false := by
      cases ty <;> first | rfl | exact absurd rfl (hns2 _)
    have ha : ty.isArray = false := by
      cases ty <;> first | rfl | exact absurd rfl (hna2 _)
    rw [CoercesTo_parameterPath ty fargs t false r hs ha hne2] at hh
    rw [CoercesTo_parameterPath ty fargs t true r2 hs ha hne2]
    simp only [ParameterCoercesTo] at hh ⊢
    rcases hsc : simpleCost ty t false with _ | c
    · rw [hsc] at hh; simp at hh
    · rw [simpleCost_mono ty t c hsc]
  · intro e r ty fargs t hns1 hns2 hna1 hna2 hnull hne r2 hh
    have hne2 : ty ≠ t := fun he => hne (by simp [InputArgumentType.typ, he])
    have hs : ty.isStruct = false := by
      cases ty <;> first | rfl | exact absurd rfl (hns2 _)
    have ha : ty.isArray = false := by
      cases ty <;> first | rfl | exact absurd rfl (hna2 _)
    rw [CoercesTo_expressionPath ty fargs t false r hs ha hne2] at hh
    rw [CoercesTo_expressionPath ty fargs t true r2 hs ha hne2]
    simp only [TypeCoercesTo] at hh ⊢
    rcases hsc : simpleCost ty t false with _ | c
    · rw [hsc] at hh; simp at hh
    · rw [simpleCost_mono ty t c hsc]
  · intro fargs i e r n1 t fr n2 t2 tr rmid hx ih1 ih2 r2 hh
    rw [coerceFields_cons] at hh
    rcases hz : CoercesTo (effectiveFieldArg fargs t i) t2 false r with ⟨b1, rr1⟩
    rw [hz] at hh
    cases b1
    · exact absurd hh (by simp)
    · have h2 : (coerceFields fargs (i + 1) fr tr false rmid).1 = true := by
        rw [coerceFields_fst_const fargs (i + 1) fr tr false rmid rr1]
        exact hh
      rw [coerceFields_cons]
      rcases hw : CoercesTo (effectiveFieldArg fargs t i) t2 true r2 with ⟨b2, rr2⟩
      have hb2 : b2 = true := by
        have h3 := ih1 r2 (by rw [hz])
        rw [hw] at h3
        exact h3
      subst hb2
      exact ih2 rr2 h2
  · intro fargs i e r n1 t fr n2 t2 tr rmid hx ih1 r2 hh
    rw [coerceFields_cons] at hh
    rcases hz : CoercesTo (effectiveFieldArg fargs t i) t2 false r with ⟨b1, rr1⟩
    rw [hz] at hh
    cases b1
    · exact absurd hh (by simp)
    · cases e with
      | false =>
          have := hx.symm.trans hz
          injection this with hb _
          exact Bool.noConfusion hb
      | true =>
          have h3 := ih1 r (by rw [hz])
          rw [hx] at h3
          exact Bool.noConfusion h3
  · intro fargs i fl tl e r hnotcons r2 hh
    cases fl with
    | nil => rw [coerceFields_nil_left]
    | cons n t fr =>
        cases tl with
        | nil => rw [coerceFields_nil_right]
        | cons n2 t2 tr => exact absurd rfl (hnotcons n t fr n2 t2 tr rfl)

end Coercer

/-- C7: the coercion relation with `is_explicit = true` is a superset of the
relation with `is_explicit = false` — whenever implicit `CoercesTo`
succeeds, explicit `CoercesTo` succeeds on the same argument, target and
accumulator. -/
theorem C7_explicit_superset (a : InputArgumentType) (to_type : SqlType)
    (r : SignatureMatchResult)
    (h : (Coercer.CoercesTo a to_type false r).1 = true) :
    (Coercer.CoercesTo a to_type true r).1 = true :=
  Coercer.CoercesTo_explicit_superset a to_type r r h

/-- Witness for C7: INT32 coerces to INT64 implicitly, hence explicitly. -/
theorem C7_explicit_superset_witness :
    (Coercer.CoercesTo (.mk .int32 .expression .nonLiteralFields) .int64 true
      SignatureMatchResult.zero).1 = true :=
  C7_explicit_superset (.mk .int32 .expression .nonLiteralFields) .int64
    SignatureMatchResult.zero
    (by simp [Coercer.CoercesTo, Coercer.TypeCoercesTo, simpleCost, simpleImplicitCost,
      InputArgumentType.typ, InputArgumentType.isLiteralNull])

/-! ### Route structure of the supertype computation -/

namespace Coercer

theorem commonSuperTypeList_nil (tpal : Bool) : commonSuperTypeList [] tpal = none := by
  rw [commonSuperTypeList]

theorem commonSuperTypeList_scalar (a0 : InputArgumentType)
    (rest : List InputArgumentType) (tpal : Bool)
    (h1 : (a0 :: rest).any (fun a => a.typ.isStruct) = false)
    (h2 : (a0 :: rest).any (fun a => a.typ.isArray) = false) :
    commonSuperTypeList (a0 :: rest) tpal =
      pickBestCandidate (a0 :: rest) (candidateTypes (a0 :: rest) tpal) := by
  rw [commonSuperTypeList]
  simp [h1, h2]

theorem commonSuperTypeList_structRoute (a0 : InputArgumentType)
    (rest : List InputArgumentType) (tpal : Bool)
    (hany : (a0 :: rest).any (fun a => a.typ.isStruct) = true) :
    commonSuperTypeList (a0 :: rest) tpal = GetCommonStructSuperType ⟨a0 :: rest⟩ := by
  rw [commonSuperTypeList, GetCommonStructSuperType]
  simp only [hany, if_true]

theorem commonSuperTypeList_arrayRoute (a0 : InputArgumentType)
    (rest : List InputArgumentType) (tpal : Bool)
    (h1 : (a0 :: rest).any (fun a => a.typ.isStruct) = false)
    (hany : (a0 :: rest).any (fun a => a.typ.isArray) = true) :
    commonSuperTypeList (a0 :: rest) tpal =
      GetCommonArraySuperType ⟨a0 :: rest⟩ tpal := by
  rw [commonSuperTypeList, GetCommonArraySuperType]
  simp only [h1, Bool.false_eq_true, if_false, hany, if_true]
  exact dite_eq_ite

/-- A second definition that follows C1's words directly, with no struct or
array routing: candidates are the exact types of the rigid
(general-expression) members, or of the flexible (literal/parameter)
members when there are zero rigid members; a candidate qualifies only if
every member implicitly coerces to it; among qualifying candidates the one
with minimal aggregate coercion distance wins, ties broken in favour of
the first-declared candidate in set-insertion order. -/
def GetCommonSuperTypeSpec (argument_set : InputArgumentTypeSet) : Option SqlType :=
  pickBestCandidate argument_set.arguments (candidateTypes argument_set.arguments true)

end Coercer

/-- C1 counterexample: on a set of two general-expression struct arguments
the claim's candidate selection would return the second member's exact type
`struct{b: INT64}` (the only qualifying candidate), but `GetCommonSuperType`
routes struct members through the per-field supertype computation and
returns the fresh type `struct{a: INT64}`, whose alias comes from the first
member and whose field type comes from the field supertype — not any
member's exact type. -/
theorem C1_selection_counterexample :
    Coercer.GetCommonSuperType ⟨[
      .mk (.struct (.cons "a" .int32 .nil)) .expression .nonLiteralFields,
      .mk (.struct (.cons "b" .int64 .nil)) .expression .nonLiteralFields]⟩ =
      some (.struct (.cons "a" .int64 .nil)) ∧
    Coercer.GetCommonSuperTypeSpec ⟨[
      .mk (.struct (.cons "a" .int32 .nil)) .expression .nonLiteralFields,
      .mk (.struct (.cons "b" .int64 .nil)) .expression .nonLiteralFields]⟩ =
      some (.struct (.cons "b" .int64 .nil)) ∧
    some (SqlType.struct (.cons "a" .int64 .nil)) ≠
      some (SqlType.struct (.cons "b" .int64 .nil)) := by
  refine ⟨?_, ?_, by decide⟩
  · simp +decide [Coercer.GetCommonSuperType, Coercer.GetCommonSuperTypeImpl,
      Coercer.commonSuperTypeList, Coercer.commonStructFields, Coercer.fieldArgAt,
      effectiveFieldArg, listFirstNonNull, SqlType.isStruct, SqlType.isArray,
      SqlType.fieldCount, FieldList.count, FieldList.typeAt, Coercer.candidateTypes,
      Coercer.isFlexible, Coercer.pickBestCandidate, Coercer.pickStep, Coercer.qualifiesAsSuperType,
      Coercer.coercesImplicitly, InputArgumentType.typ, InputArgumentType.fieldArgs,
      InputArgumentType.isLiteral, InputArgumentType.isParameter,
      InputArgumentType.isLiteralNull, Coercer.CoercesTo, Coercer.TypeCoercesTo,
      simpleCost, simpleImplicitCost, List.filter, List.all, List.foldl, List.find?,
      List.map]
  · simp +decide [Coercer.GetCommonSuperTypeSpec, Coercer.candidateTypes,
      Coercer.isFlexible, Coercer.pickBestCandidate, Coercer.pickStep, Coercer.qualifiesAsSuperType,
      Coercer.coercesImplicitly, Coercer.aggregateDistance, InputArgumentType.typ,
      InputArgumentType.fieldArgs, InputArgumentType.isLiteral,
      InputArgumentType.isParameter, InputArgumentType.isLiteralNull,
      Coercer.CoercesTo, Coercer.coerceFields, effectiveFieldArg,
      Coercer.TypeCoercesTo, simpleCost, simpleImplicitCost, SqlType.equivalent,
      SqlType.stripFieldAliases, FieldList.stripFieldAliases, FieldList.count,
      FieldList.typeAt, List.filter, List.all, List.foldl, List.map,
      SignatureMatchResult.zero, SignatureMatchResult.addSuccess,
      SignatureMatchResult.addFailure]

/-- C1 as amended: on argument sets with no struct-typed and no array-typed
members, `GetCommonSuperType` is exactly the claim's candidate selection:
candidates are the rigid members' exact types (or the flexible members'
types when there are zero rigid members), a candidate qualifies only if
every member implicitly coerces to it, and the qualifying candidate of
minimal aggregate distance wins with ties broken towards the
first-declared.  (Struct/array members route through the per-field /
per-element supertype instead, per §4.7.) -/
theorem C1_selection_no_composites (s : InputArgumentTypeSet)
    (h : ∀ a ∈ s.arguments, a.typ.isStruct = false ∧ a.typ.isArray = false) :
    Coercer.GetCommonSuperType s = Coercer.GetCommonSuperTypeSpec s := by
  obtain ⟨args⟩ := s
  cases args with
  | nil =>
      rw [Coercer.GetCommonSuperType, Coercer.GetCommonSuperTypeImpl,
        Coercer.commonSuperTypeList_nil]
      rfl
  | cons a0 rest =>
      have h1 : (a0 :: rest).any (fun a => a.typ.isStruct) = false := by
        rw [List.any_eq_false]
        intro x hx
        simp [(h x hx).1]
      have h2 : (a0 :: rest).any (fun a => a.typ.isArray) = false := by
        rw [List.any_eq_false]
        intro x hx
        simp [(h x hx).2]
      rw [Coercer.GetCommonSuperType, Coercer.GetCommonSuperTypeImpl,
        Coercer.commonSuperTypeList_scalar a0 rest true h1 h2]
      rfl

/-- Witness for C1's amended statement on a concrete composite-free set. -/
theorem C1_selection_no_composites_witness :
    Coercer.GetCommonSuperType ⟨[.mk .int32 .expression .nonLiteralFields,
      .mk .int64 .expression .nonLiteralFields]⟩ =
    Coercer.GetCommonSuperTypeSpec ⟨[.mk .int32 .expression .nonLiteralFields,
      .mk .int64 .expression .nonLiteralFields]⟩ :=
  C1_selection_no_composites ⟨[.mk .int32 .expression .nonLiteralFields,
    .mk .int64 .expression .nonLiteralFields]⟩ (by decide)

/-! ### Soundness of the supertype computation (C6) -/

mutual

/-- No array type occurs anywhere inside the type. -/
def SqlType.arrayFree : SqlType → Bool
  | .array _ => false
  | .struct fl => FieldList.arrayFree fl
  | _ => true

def FieldList.arrayFree : FieldList → Bool
  | .nil => true
  | .cons _ t rest => SqlType.arrayFree t && FieldList.arrayFree rest

end

theorem FieldList.arrayFree_typeAt : ∀ (fl : FieldList) (i : Nat),
    fl.arrayFree = true → (fl.typeAt i).arrayFree = true
  | .nil, _, _ => rfl
  | .cons _ t rest, 0, h => by
      simp only [FieldList.arrayFree, Bool.and_eq_true] at h
      exact h.1
  | .cons _ t rest, i + 1, h => by
      simp only [FieldList.arrayFree, Bool.and_eq_true] at h
      exact FieldList.arrayFree_typeAt rest i h.2

theorem SqlType.arrayFree_not_isArray (t : SqlType) (h : t.arrayFree = true) :
    t.isArray = false := by
  cases t <;> first | rfl | exact Bool.noConfusion h

namespace Coercer

theorem commonStructFields_nil (members : List InputArgumentType)
    (hne : members ≠ []) (hstr : ∀ a ∈ members, a.typ.isStruct = true) (i : Nat) :
    commonStructFields members hne hstr i .nil = some .nil := by
  rw [commonStructFields]

theorem commonStructFields_cons (members : List InputArgumentType)
    (hne : members ≠ []) (hstr : ∀ a ∈ members, a.typ.isStruct = true) (i : Nat)
    (name : String) (t0 : SqlType) (rest : FieldList) :
    commonStructFields members hne hstr i (.cons name t0 rest) =
      match commonSuperTypeList (members.map (fun a => fieldArgAt a i)) true with
      | none => none
      | some t =>
          match commonStructFields members hne hstr (i + 1) rest with
          | none => none
          | some fl2 => some (.cons name t fl2) := by
  rw [commonStructFields]

theorem pickStep_eq_none (args : List InputArgumentType) (best : Option SqlType)
    (c : SqlType) :
    pickStep args best c = none ↔
      (best = none ∧ qualifiesAsSuperType args c = false) := by
  cases best with
  | none =>
      by_cases hq : qualifiesAsSuperType args c = true <;> simp [pickStep, hq]
  | some b =>
      by_cases hq : qualifiesAsSuperType args c = true
      · simp only [pickStep, hq, if_true]
        constructor
        · intro h
          by_cases hd : aggregateDistance args c < aggregateDistance args b
          · rw [if_pos hd] at h; exact Option.noConfusion h
          · rw [if_neg hd] at h; exact Option.noConfusion h
        · intro h; exact Option.noConfusion h.1
      · simp [pickStep, hq]

theorem pickStep_some_inv (args : List InputArgumentType) (best : Option SqlType)
    (c d : SqlType) (h : pickStep args best c = some d) :
    best = some d ∨ (d = c ∧ qualifiesAsSuperType args c = true) := by
  by_cases hq : qualifiesAsSuperType args c = true
  · cases best with
    | none =>
        right
        simp only [pickStep, hq, if_true] at h
        exact ⟨(Option.some.injEq _ _ ▸ h).symm, hq⟩
    | some b =>
        simp only [pickStep, hq, if_true] at h
        by_cases hd : aggregateDistance args c < aggregateDistance args b
        · rw [if_pos hd] at h
          exact Or.inr ⟨(Option.some.injEq _ _ ▸ h).symm, hq⟩
        · rw [if_neg hd] at h
          exact Or.inl h
  · left
    simp only [pickStep, hq, if_false] at h
    simpa using h

theorem foldl_pickStep_none (args : List InputArgumentType) :
    ∀ (cands : List SqlType) (acc : Option SqlType),
      List.foldl (pickStep args) acc cands = none →
      acc = none ∧ ∀ c ∈ cands, qualifiesAsSuperType args c = false := by
  intro cands
  induction cands with
  | nil => intro acc h; exact ⟨h, by simp⟩
  | cons c0 rest ih =>
      intro acc h
      simp only [List.foldl_cons] at h
      obtain ⟨hstep, hrest⟩ := ih (pickStep args acc c0) h
      obtain ⟨hacc, hq0⟩ := (pickStep_eq_none args acc c0).mp hstep
      refine ⟨hacc, ?_⟩
      intro c hc
      rcases List.mem_cons.mp hc with h1 | h2
      · rw [h1]; exact hq0
      · exact hrest c h2

theorem foldl_pickStep_some (args : List InputArgumentType) :
    ∀ (cands : List SqlType) (acc : Option SqlType) (c : SqlType),
      List.foldl (pickStep args) acc cands = some c →
      acc = some c ∨ (c ∈ cands ∧ qualifiesAsSuperType args c = true) := by
  intro cands
  induction cands with
  | nil => intro acc c h; exact Or.inl h
  | cons c0 rest ih =>
      intro acc c h
      simp only [List.foldl_cons] at h
      rcases ih (pickStep args acc c0) c h with h1 | h2
      · rcases pickStep_some_inv args acc c0 c h1 with ha | hb
        · exact Or.inl ha
        · obtain ⟨hc0, hq⟩ := hb
          subst hc0
          exact Or.inr ⟨List.mem_cons_self _ rest, hq⟩
      · exact Or.inr ⟨List.mem_cons_of_mem c0 h2.1, h2.2⟩

theorem pickBestCandidate_qualifies (args : List InputArgumentType)
    (cands : List SqlType) (c : SqlType)
    (h : pickBestCandidate args cands = some c) :
    c ∈ cands ∧ qualifiesAsSuperType args c = true := by
  unfold pickBestCandidate at h
  rcases foldl_pickStep_some args cands none c h with h1 | h2
  · exact Option.noConfusion h1
  · exact h2

/-- If every position coerces on a fresh accumulator, the whole field walk
succeeds on any accumulator. -/
theorem coerceFields_of_pointwise : ∀ (fl tl : FieldList) (fargs : FieldArgs)
    (i : Nat) (r : SignatureMatchResult),
    (∀ j, j < tl.count →
      (CoercesTo (effectiveFieldArg fargs (fl.typeAt j) (i + j)) (tl.typeAt j)
        false SignatureMatchResult.zero).1 = true) →
    (coerceFields fargs i fl tl false r).1 = true
  | .nil, tl, fargs, i, r, _ => by rw [coerceFields_nil_left]
  | .cons n t fr, .nil, fargs, i, r, _ => by rw [coerceFields_nil_right]
  | .cons n t fr, .cons n2 t2 tr, fargs, i, r, h => by
      rw [coerceFields_cons]
      have h0 := h 0 (by simp [FieldList.count])
      simp only [FieldList.typeAt, Nat.add_zero] at h0
      rcases hz : CoercesTo (effectiveFieldArg fargs t i) t2 false r with ⟨b, rm⟩
      have hb : b = true := by
        have := CoercesTo_fst_const (effectiveFieldArg fargs t i) t2 false
          SignatureMatchResult.zero r
        rw [h0] at this  -- hmm: this : (CoercesTo ... zero).1 = (CoercesTo ... r).1
        rw [hz] at this
        exact this.symm
      subst hb
      exact coerceFields_of_pointwise fr tr fargs (i + 1) rm
        (fun j hj => by
          have hsucc := h (j + 1) (by simp [FieldList.count]; omega)
          simp only [FieldList.typeAt] at hsucc
          have harith : i + (j + 1) = i + 1 + j := by omega
          rw [harith] at hsucc
          exact hsucc)

end Coercer

theorem SqlType.isStruct_exists (t : SqlType) (h : t.isStruct = true) :
    ∃ fl, t = SqlType.struct fl := by
  cases t <;> first | exact ⟨_, rfl⟩ | exact Bool.noConfusion h

namespace Coercer

theorem GetCommonStructSuperType_cons (a0 : InputArgumentType)
    (rest : List InputArgumentType) :
    GetCommonStructSuperType ⟨a0 :: rest⟩ =
      if hall : ∀ a ∈ a0 :: rest, a.typ.isStruct = true then
        match ((listFirstNonNull (a0 :: rest)).getD a0).typ with
        | .struct srcFl =>
            if ∀ a ∈ a0 :: rest, a.typ.fieldCount = srcFl.count then
              match commonStructFields (a0 :: rest) (by simp) hall 0 srcFl with
              | some fl => some (.struct fl)
              | none => none
            else none
        | _ => none
      else none := rfl

theorem listFirstNonNull_getD_mem (a0 : InputArgumentType)
    (rest : List InputArgumentType) :
    (listFirstNonNull (a0 :: rest)).getD a0 ∈ a0 :: rest := by
  rcases hf : (a0 :: rest).find? (fun a => !a.isLiteralNull) with _ | x
  · simp [listFirstNonNull, hf]
  · simp only [listFirstNonNull, hf, Option.getD_some]
    exact List.mem_of_find?_eq_some hf

theorem fieldArgAt_typ_struct (a : InputArgumentType) (fl : FieldList) (i : Nat)
    (h : a.typ = .struct fl) : (fieldArgAt a i).typ = fl.typeAt i := by
  obtain ⟨t, k, f⟩ := a
  simp only [InputArgumentType.typ] at h
  subst h
  by_cases hn : (InputArgumentType.mk (SqlType.struct fl) k f).isLiteralNull = true
  · simp [fieldArgAt, InputArgumentType.typ, hn]
  · have hn2 : (InputArgumentType.mk (SqlType.struct fl) k f).isLiteralNull = false := by
      simpa using hn
    rw [show fieldArgAt (InputArgumentType.mk (SqlType.struct fl) k f) i =
        effectiveFieldArg f (fl.typeAt i) i from by
      simp [fieldArgAt, InputArgumentType.typ, hn2, InputArgumentType.fieldArgs]]
    exact effectiveFieldArg_typ f (fl.typeAt i) i

theorem fieldArgAt_arrayFree (a : InputArgumentType) (fl : FieldList) (i : Nat)
    (h : a.typ = .struct fl) (hf : a.typ.arrayFree = true) :
    (fieldArgAt a i).typ.arrayFree = true := by
  rw [fieldArgAt_typ_struct a fl i h]
  rw [h] at hf
  simp only [SqlType.arrayFree] at hf
  exact FieldList.arrayFree_typeAt fl i hf

/-- Struct-field walk soundness, parameterised by soundness of the
supertype computation on strictly lighter argument lists. -/
theorem commonStructFields_sound (n : Nat)
    (ih : ∀ (args : List InputArgumentType) (tpal : Bool) (c : SqlType),
      setWeight args ≤ n → (∀ a ∈ args, a.typ.arrayFree = true) →
      commonSuperTypeList args tpal = some c →
      ∀ a ∈ args, coercesImplicitly a c = true) :
    ∀ (srcFl : FieldList) (i : Nat) (members : List InputArgumentType)
      (hne : members ≠ []) (hstr : ∀ x ∈ members, x.typ.isStruct = true)
      (fl : FieldList), setWeight members ≤ n + 1 →
      (∀ x ∈ members, x.typ.arrayFree = true) →
      commonStructFields members hne hstr i srcFl = some fl →
      fl.count = srcFl.count ∧
      ∀ x ∈ members, ∀ j, j < srcFl.count →
        (CoercesTo (fieldArgAt x (i + j)) (fl.typeAt j) false
          SignatureMatchResult.zero).1 = true
  | .nil, i, members, hne, hstr, fl, hw2, hfree2, hcf => by
      rw [commonStructFields_nil] at hcf
      have hfl : FieldList.nil = fl := Option.some.inj hcf
      subst hfl
      refine ⟨rfl, ?_⟩
      intro x _ j hj
      simp [FieldList.count] at hj
  | .cons name t0 rest2, i, members, hne, hstr, fl, hw2, hfree2, hcf => by
      rw [commonStructFields_cons] at hcf
      rcases hsu : commonSuperTypeList
          (members.map (fun x => fieldArgAt x i)) true with _ | t
      · rw [hsu] at hcf; exact Option.noConfusion hcf
      · rw [hsu] at hcf
        rcases hcf2 : commonStructFields members hne hstr (i + 1) rest2
            with _ | fl2
        · rw [hcf2] at hcf; exact Option.noConfusion hcf
        · rw [hcf2] at hcf
          have hfl : FieldList.cons name t fl2 = fl := Option.some.inj hcf
          subst hfl
          obtain ⟨ihc, ihp⟩ := commonStructFields_sound n ih rest2 (i + 1)
            members hne hstr fl2 hw2 hfree2 hcf2
          refine ⟨by simp [FieldList.count, ihc], ?_⟩
          intro x hx j hj
          cases j with
          | zero =>
              simp only [FieldList.typeAt, Nat.add_zero]
              have hwlt : setWeight (members.map (fun y => fieldArgAt y i)) <
                  setWeight members :=
                setWeight_map_lt members _ hne
                  (fun y hy => fieldArgAt_tsize_lt y i (hstr y hy))
              have hfr : ∀ y ∈ members.map (fun z => fieldArgAt z i),
                  y.typ.arrayFree = true := by
                intro y hy
                rcases List.mem_map.mp hy with ⟨x2, hx2, hyx⟩
                rw [← hyx]
                obtain ⟨fl3, hfl3⟩ :=
                  SqlType.isStruct_exists x2.typ (hstr x2 hx2)
                exact fieldArgAt_arrayFree x2 fl3 i hfl3 (hfree2 x2 hx2)
              exact ih (members.map (fun z => fieldArgAt z i)) true t
                (by omega) hfr hsu (fieldArgAt x i)
                (List.mem_map_of_mem _ hx)
          | succ j' =>
              have hstep := ihp x hx j'
                (by simp [FieldList.count] at hj; omega)
              simp only [FieldList.typeAt]
              have harith : i + (j' + 1) = (i + 1) + j' := by omega
              rw [harith]
              exact hstep

/-- Soundness of the supertype computation on array-free argument sets: a
returned supertype is implicitly coercible from every member. -/
theorem supertype_sound : ∀ (n : Nat) (args : List InputArgumentType)
    (tpal : Bool) (c : SqlType), setWeight args ≤ n →
    (∀ a ∈ args, a.typ.arrayFree = true) →
    commonSuperTypeList args tpal = some c →
    ∀ a ∈ args, coercesImplicitly a c = true := by
  intro n
  induction n with
  | zero =>
      intro args tpal c hw _ hsome a ha
      cases args with
      | nil => rw [commonSuperTypeList_nil] at hsome; exact Option.noConfusion hsome
      | cons a0 rest =>
          exfalso
          have h1 := SqlType.tsize_pos a0.typ
          simp only [setWeight, List.map_cons, List.sum_cons] at hw
          omega
  | succ n ih =>
      intro args tpal c hw hfree hsome a ha
      cases args with
      | nil => rw [commonSuperTypeList_nil] at hsome; exact Option.noConfusion hsome
      | cons a0 rest =>
          by_cases hstrany : (a0 :: rest).any (fun x => x.typ.isStruct) = true
          · rw [commonSuperTypeList_structRoute a0 rest tpal hstrany,
              GetCommonStructSuperType_cons] at hsome
            by_cases hall : ∀ x ∈ a0 :: rest, x.typ.isStruct = true
            · rw [dif_pos hall] at hsome
              obtain ⟨srcFl, hsx⟩ := SqlType.isStruct_exists _
                (hall _ (listFirstNonNull_getD_mem a0 rest))
              rw [hsx] at hsome
              have hsome2 : (if ∀ x ∈ a0 :: rest, x.typ.fieldCount = srcFl.count then
                  match commonStructFields (a0 :: rest) (by simp) hall 0 srcFl with
                  | some fl => some (SqlType.struct fl)
                  | none => none
                else none) = some c := hsome
              by_cases hcnt : ∀ x ∈ a0 :: rest, x.typ.fieldCount = srcFl.count
              · rw [if_pos hcnt] at hsome2
                rcases hcf : commonStructFields (a0 :: rest) (by simp) hall 0 srcFl
                    with _ | fl
                · rw [hcf] at hsome2; exact Option.noConfusion hsome2
                · rw [hcf] at hsome2
                  have hc : SqlType.struct fl = c := Option.some.inj hsome2
                  subst hc
                  obtain ⟨hcount, hpw⟩ := commonStructFields_sound n ih srcFl 0
                    (a0 :: rest) (by simp) hall fl hw hfree hcf
                  obtain ⟨sfla, hta⟩ := SqlType.isStruct_exists a.typ (hall a ha)
                  obtain ⟨t, k, f⟩ := a
                  simp only [InputArgumentType.typ] at hta
                  subst hta
                  by_cases hsame : SqlType.struct sfla = SqlType.struct fl
                  · rw [coercesImplicitly,
                      CoercesTo_same _ k f _ false SignatureMatchResult.zero hsame]
                  · by_cases hnl : (InputArgumentType.mk (SqlType.struct sfla) k
                        f).isLiteralNull = true
                    · cases k with
                      | literal v =>
                          rw [coercesImplicitly, CoercesTo_nullLit _ v f _ false
                            SignatureMatchResult.zero hsame
                            (by simpa [InputArgumentType.isLiteralNull] using hnl)]
                      | parameter =>
                          exact absurd hnl (by simp [InputArgumentType.isLiteralNull])
                      | expression =>
                          exact absurd hnl (by simp [InputArgumentType.isLiteralNull])
                    · have hnl2 : (InputArgumentType.mk (SqlType.struct sfla) k
                          f).isLiteralNull = false := by simpa using hnl
                      rw [coercesImplicitly, CoercesTo_structPath sfla k f _ false
                        SignatureMatchResult.zero hsame hnl2]
                      unfold StructCoercesTo
                      simp only [InputArgumentType.typ, InputArgumentType.fieldArgs]
                      have hceq : FieldList.count sfla = FieldList.count fl := by
                        have h1 := hcnt (InputArgumentType.mk (SqlType.struct sfla)
                          k f) ha
                        simp only [InputArgumentType.typ, SqlType.fieldCount] at h1
                        omega
                      rw [if_pos (by simp [hceq])]
                      apply coerceFields_of_pointwise
                      intro j hj
                      have hp := hpw (InputArgumentType.mk (SqlType.struct sfla) k f)
                        ha j (by omega)
                      rw [show fieldArgAt (InputArgumentType.mk (SqlType.struct sfla)
                          k f) (0 + j) =
                          effectiveFieldArg f (sfla.typeAt (0 + j)) (0 + j) from by
                        simp [fieldArgAt, InputArgumentType.typ_mk, hnl2,
                          InputArgumentType.fieldArgs]] at hp
                      simp only [Nat.zero_add] at hp ⊢
                      exact hp
              · rw [if_neg hcnt] at hsome2; exact Option.noConfusion hsome2
            · rw [dif_neg hall] at hsome; exact Option.noConfusion hsome
          · by_cases harrany : (a0 :: rest).any (fun x => x.typ.isArray) = true
            · exfalso
              obtain ⟨x, hx, hxa⟩ := List.any_eq_true.mp harrany
              have := SqlType.arrayFree_not_isArray x.typ (hfree x hx)
              rw [this] at hxa
              exact Bool.noConfusion hxa
            · rw [commonSuperTypeList_scalar a0 rest tpal
                (by simpa using hstrany) (by simpa using harrany)] at hsome
              have hq := (pickBestCandidate_qualifies _ _ _ hsome).2
              exact List.all_eq_true.mp hq a ha

end Coercer

/-- A general (non-literal, non-parameter) STRING expression implicitly
coerces only to STRING itself. -/
theorem coercesImplicitly_string_expr (c : SqlType)
    (h : Coercer.coercesImplicitly
      (.mk .string .expression .nonLiteralFields) c = true) :
    c = .string := by
  by_contra hne
  rw [Coercer.coercesImplicitly,
    Coercer.CoercesTo_expressionPath .string .nonLiteralFields c false
      SignatureMatchResult.zero rfl rfl (fun he => hne he.symm)] at h
  cases c <;>
    first
      | exact hne rfl
      | simp [Coercer.TypeCoercesTo, simpleCost, simpleImplicitCost] at h

/-- A general (non-literal, non-parameter) expression of type
ARRAY<INT32> implicitly coerces only to ARRAY<INT32> itself. -/
theorem coercesImplicitly_arrayInt32_expr (c : SqlType)
    (h : Coercer.coercesImplicitly
      (.mk (.array .int32) .expression .nonLiteralFields) c = true) :
    c = .array .int32 := by
  by_contra hne
  rw [Coercer.coercesImplicitly,
    Coercer.CoercesTo_arrayPath .int32 .expression .nonLiteralFields c false
      SignatureMatchResult.zero (fun he => hne he.symm) rfl] at h
  unfold Coercer.ArrayCoercesTo at h
  simp only [InputArgumentType.typ] at h
  cases c <;>
    first
      | exact hne rfl
      | simp [InputArgumentType.isLiteral, InputArgumentType.isParameter] at h
  rename_i el
  cases el <;>
    first
      | exact hne rfl
      | simp [SqlType.equivalent, SqlType.stripFieldAliases,
          FieldList.stripFieldAliases, SqlType.beq, SqlType.ctorCode,
          InputArgumentType.isLiteral, InputArgumentType.isParameter] at h

/-- C6 counterexample to the claim as universally worded: the set of two
general expressions of types ARRAY<INT32> and ARRAY<INT64> has NO candidate
type implicitly coercible from both members (each member, being a
non-literal non-parameter array expression, coerces only to its own exact
array type), and yet `GetCommonSuperType` does not return the "no type"
sentinel: the array route wraps the element supertype and returns
ARRAY<INT64>. -/
theorem C6_sentinel_counterexample :
    Coercer.GetCommonSuperType
        ⟨[.mk (.array .int32) .expression .nonLiteralFields,
          .mk (.array .int64) .expression .nonLiteralFields]⟩ =
      some (.array .int64) ∧
    ∀ c : SqlType,
      ¬ (Coercer.coercesImplicitly
            (.mk (.array .int32) .expression .nonLiteralFields) c = true ∧
         Coercer.coercesImplicitly
            (.mk (.array .int64) .expression .nonLiteralFields) c = true) := by
  constructor
  · simp +decide [Coercer.GetCommonSuperType, Coercer.GetCommonSuperTypeImpl,
      Coercer.commonSuperTypeList, Coercer.elementArg, listFirstNonNull,
      SqlType.isStruct, SqlType.isArray, Coercer.candidateTypes,
      Coercer.isFlexible, Coercer.pickBestCandidate, Coercer.pickStep,
      Coercer.qualifiesAsSuperType, Coercer.coercesImplicitly,
      InputArgumentType.typ, InputArgumentType.kind, InputArgumentType.fieldArgs,
      InputArgumentType.isLiteral, InputArgumentType.isParameter,
      InputArgumentType.isLiteralNull, Coercer.CoercesTo, Coercer.TypeCoercesTo,
      SqlType.equivalent, SqlType.stripFieldAliases,
      simpleCost, simpleImplicitCost, List.filter, List.all, List.foldl,
      List.find?, List.map]
  · intro c ⟨h1, h2⟩
    have hc := coercesImplicitly_arrayInt32_expr c h1
    subst hc
    simp +decide [Coercer.coercesImplicitly, Coercer.CoercesTo,
      Coercer.TypeCoercesTo, SqlType.equivalent, SqlType.stripFieldAliases,
      InputArgumentType.typ, InputArgumentType.isLiteral,
      InputArgumentType.isParameter, InputArgumentType.isLiteralNull,
      simpleCost, simpleImplicitCost] at h2

/-- C6 as amended: over argument sets whose member types contain no array
type anywhere, `GetCommonSuperType` returns the distinguished "no type"
sentinel (`none`, never an error value) whenever no candidate type is
implicitly coercible from every member of the set; in particular the set
of one STRING and one BYTES general expression yields no common supertype.
(Array-typed members are excluded: the array route returns a supertype
built from the element supertype even when a non-literal member does not
implicitly coerce to it.) -/
theorem C6_none_sentinel :
    (∀ (s : InputArgumentTypeSet),
        (∀ a ∈ s.arguments, a.typ.arrayFree = true) →
        (∀ c : SqlType, ¬ ∀ a ∈ s.arguments, Coercer.coercesImplicitly a c = true) →
        Coercer.GetCommonSuperType s = none) ∧
    Coercer.GetCommonSuperType
        ⟨[.mk .string .expression .nonLiteralFields,
          .mk .bytes .expression .nonLiteralFields]⟩ = none := by
  constructor
  · intro s hfree hnoq
    rcases hres : Coercer.GetCommonSuperType s with _ | c
    · rfl
    · exfalso
      apply hnoq c
      intro a ha
      exact Coercer.supertype_sound (Coercer.setWeight s.arguments) s.arguments
        true c le_rfl hfree hres a ha
  · simp +decide [Coercer.GetCommonSuperType, Coercer.GetCommonSuperTypeImpl,
      Coercer.commonSuperTypeList, listFirstNonNull, SqlType.isStruct,
      SqlType.isArray, Coercer.candidateTypes, Coercer.isFlexible,
      Coercer.pickBestCandidate, Coercer.pickStep, Coercer.qualifiesAsSuperType,
      Coercer.coercesImplicitly, InputArgumentType.typ,
      InputArgumentType.fieldArgs, InputArgumentType.isLiteral,
      InputArgumentType.isParameter, InputArgumentType.isLiteralNull,
      Coercer.CoercesTo, Coercer.TypeCoercesTo, simpleCost, simpleImplicitCost,
      List.filter, List.all, List.foldl, List.find?, List.map]

/-- C6 witness: the amended theorem applied to the STRING/BYTES expression
set: every member type is array-free, no candidate type is implicitly
coercible from both members (STRING only coerces to STRING, which BYTES
does not implicitly reach), and the computed supertype is the `none`
sentinel. -/
theorem C6_none_sentinel_witness :
    Coercer.GetCommonSuperType
        ⟨[.mk .string .expression .nonLiteralFields,
          .mk .bytes .expression .nonLiteralFields]⟩ = none := by
  apply C6_none_sentinel.1
  · intro a ha
    simp only [List.mem_cons, List.not_mem_nil, or_false] at ha
    rcases ha with rfl | rfl <;> rfl
  · intro c hc
    have h1 := hc (.mk .string .expression .nonLiteralFields) (by simp)
    have h2 := hc (.mk .bytes .expression .nonLiteralFields) (by simp)
    have hcs := coercesImplicitly_string_expr c h1
    subst hcs
    simp +decide [Coercer.coercesImplicitly, Coercer.CoercesTo,
      Coercer.TypeCoercesTo, InputArgumentType.typ, InputArgumentType.isLiteral,
      InputArgumentType.isParameter, InputArgumentType.isLiteralNull,
      simpleCost, simpleImplicitCost] at h2

/-! ### Order invariance of the supertype ingredients (C8) -/

namespace Coercer

theorem qualifiesAsSuperType_perm (args args2 : List InputArgumentType)
    (c : SqlType) (h : args.Perm args2) :
    qualifiesAsSuperType args c = qualifiesAsSuperType args2 c := by
  cases hq : qualifiesAsSuperType args2 c with
  | true =>
      rw [qualifiesAsSuperType, List.all_eq_true] at hq ⊢
      intro x hx
      exact hq x (h.mem_iff.mp hx)
  | false =>
      rw [qualifiesAsSuperType] at hq ⊢
      by_contra hne
      have h1 : args.all (fun a => coercesImplicitly a c) = true :=
        Bool.ne_false_iff.mp hne
      rw [List.all_eq_true] at h1
      have h2 : args2.all (fun a => coercesImplicitly a c) = true :=
        List.all_eq_true.mpr (fun x hx => h1 x (h.mem_iff.mpr hx))
      rw [hq] at h2
      exact Bool.noConfusion h2

theorem aggregateDistance_perm (args args2 : List InputArgumentType)
    (c : SqlType) (h : args.Perm args2) :
    aggregateDistance args c = aggregateDistance args2 c :=
  (h.map (fun a => (CoercesTo a c false SignatureMatchResult.zero).2.distance)).sum_eq

theorem candidateTypes_perm (args args2 : List InputArgumentType) (tpal : Bool)
    (h : args.Perm args2) :
    (candidateTypes args tpal).Perm (candidateTypes args2 tpal) := by
  have hce : ∀ (l : List InputArgumentType), candidateTypes l tpal =
      (if (l.filter (fun a => !(isFlexible tpal a))).isEmpty then l
       else l.filter (fun a => !(isFlexible tpal a))).map (fun a => a.typ) :=
    fun l => rfl
  rw [hce args, hce args2]
  have hf : (args.filter (fun a => !(isFlexible tpal a))).Perm
      (args2.filter (fun a => !(isFlexible tpal a))) := h.filter _
  have hlen := hf.length_eq
  by_cases he : (args.filter (fun a => !(isFlexible tpal a))).isEmpty = true
  · have he2 : (args2.filter (fun a => !(isFlexible tpal a))).isEmpty = true := by
      rw [List.isEmpty_iff_length_eq_zero] at he ⊢
      omega
    rw [if_pos he, if_pos he2]
    exact h.map _
  · have he2 : ¬ (args2.filter (fun a => !(isFlexible tpal a))).isEmpty = true := by
      rw [List.isEmpty_iff_length_eq_zero] at he ⊢
      omega
    rw [if_neg he, if_neg he2]
    exact hf.map _

/-- The fold behind `pickBestCandidate` returns a qualifying candidate of
minimal aggregate distance (among the accumulator and the traversed
qualifying candidates). -/
theorem foldl_pickStep_min (args : List InputArgumentType) :
    ∀ (cands : List SqlType) (acc : Option SqlType) (c : SqlType),
      List.foldl (pickStep args) acc cands = some c →
      (∀ b, acc = some b → aggregateDistance args c ≤ aggregateDistance args b) ∧
      (∀ d ∈ cands, qualifiesAsSuperType args d = true →
        aggregateDistance args c ≤ aggregateDistance args d) := by
  intro cands
  induction cands with
  | nil =>
      intro acc c h
      refine ⟨?_, by simp⟩
      intro b hb
      rw [hb] at h
      simp only [List.foldl_nil] at h
      have : b = c := Option.some.inj h
      subst this
      exact le_rfl
  | cons c0 rest ih =>
      intro acc c h
      simp only [List.foldl_cons] at h
      obtain ⟨ihacc, ihrest⟩ := ih (pickStep args acc c0) c h
      constructor
      · intro b hb
        by_cases hq : qualifiesAsSuperType args c0 = true
        · by_cases hd : aggregateDistance args c0 < aggregateDistance args b
          · have := ihacc c0 (by rw [hb]; simp [pickStep, hq, hd])
            omega
          · exact ihacc b (by rw [hb]; simp [pickStep, hq, hd])
        · exact ihacc b (by rw [hb]; simp [pickStep, hq])
      · intro d hd hqd
        rcases List.mem_cons.mp hd with rfl | hdr
        · cases acc with
          | none => exact ihacc d (by simp [pickStep, hqd])
          | some b =>
              by_cases hcmp : aggregateDistance args d < aggregateDistance args b
              · exact ihacc d (by simp [pickStep, hqd, hcmp])
              · have hble := ihacc b (by simp [pickStep, hqd, hcmp])
                omega
        · exact ihrest d hdr hqd

theorem pickBestCandidate_min (args : List InputArgumentType)
    (cands : List SqlType) (c : SqlType)
    (h : pickBestCandidate args cands = some c) :
    ∀ d ∈ cands, qualifiesAsSuperType args d = true →
      aggregateDistance args c ≤ aggregateDistance args d :=
  (foldl_pickStep_min args cands none c h).2

theorem pickBestCandidate_none (args : List InputArgumentType)
    (cands : List SqlType) (h : pickBestCandidate args cands = none) :
    ∀ c ∈ cands, qualifiesAsSuperType args c = false :=
  (foldl_pickStep_none args cands none h).2

end Coercer

/-- C8 counterexample to the claim as worded: reordering can change more
than struct field aliases.  The set of a NULL STRING literal and a NULL
BYTES literal has zero rigid members, so both STRING and BYTES are
candidates; both qualify (NULL coerces to anything at cost 1) with equal
aggregate distance 1, and the tie-break picks the first-declared
candidate: one order yields STRING, the reversed order yields BYTES —
types that differ even after stripping struct field aliases. -/
theorem C8_order_counterexample :
    List.Perm
      [InputArgumentType.mk .string (.literal ⟨.string, true, 0⟩) .nonLiteralFields,
        InputArgumentType.mk .bytes (.literal ⟨.bytes, true, 0⟩) .nonLiteralFields]
      [InputArgumentType.mk .bytes (.literal ⟨.bytes, true, 0⟩) .nonLiteralFields,
        InputArgumentType.mk .string (.literal ⟨.string, true, 0⟩) .nonLiteralFields] ∧
    Coercer.GetCommonSuperType
        ⟨[InputArgumentType.mk .string (.literal ⟨.string, true, 0⟩) .nonLiteralFields,
          InputArgumentType.mk .bytes (.literal ⟨.bytes, true, 0⟩) .nonLiteralFields]⟩ =
      some .string ∧
    Coercer.GetCommonSuperType
        ⟨[InputArgumentType.mk .bytes (.literal ⟨.bytes, true, 0⟩) .nonLiteralFields,
          InputArgumentType.mk .string (.literal ⟨.string, true, 0⟩) .nonLiteralFields]⟩ =
      some .bytes ∧
    SqlType.stripFieldAliases .string ≠ SqlType.stripFieldAliases .bytes := by
  refine ⟨List.Perm.swap _ _ _, ?_, ?_, ?_⟩
  · simp +decide [Coercer.GetCommonSuperType, Coercer.GetCommonSuperTypeImpl,
      Coercer.commonSuperTypeList, listFirstNonNull, SqlType.isStruct,
      SqlType.isArray, Coercer.candidateTypes, Coercer.isFlexible,
      Coercer.pickBestCandidate, Coercer.pickStep, Coercer.qualifiesAsSuperType,
      Coercer.coercesImplicitly, Coercer.aggregateDistance,
      InputArgumentType.typ, InputArgumentType.kind, InputArgumentType.fieldArgs,
      InputArgumentType.isLiteral, InputArgumentType.isParameter,
      InputArgumentType.isLiteralNull, Coercer.CoercesTo, Coercer.TypeCoercesTo,
      Coercer.LiteralCoercesTo, GetLiteralCoercionCost, GetTypeCoercionCost,
      simpleCost, simpleImplicitCost, SignatureMatchResult.zero,
      SignatureMatchResult.addSuccess, SignatureMatchResult.addFailure,
      List.filter, List.all, List.foldl, List.find?, List.map]
  · simp +decide [Coercer.GetCommonSuperType, Coercer.GetCommonSuperTypeImpl,
      Coercer.commonSuperTypeList, listFirstNonNull, SqlType.isStruct,
      SqlType.isArray, Coercer.candidateTypes, Coercer.isFlexible,
      Coercer.pickBestCandidate, Coercer.pickStep, Coercer.qualifiesAsSuperType,
      Coercer.coercesImplicitly, Coercer.aggregateDistance,
      InputArgumentType.typ, InputArgumentType.kind, InputArgumentType.fieldArgs,
      InputArgumentType.isLiteral, InputArgumentType.isParameter,
      InputArgumentType.isLiteralNull, Coercer.CoercesTo, Coercer.TypeCoercesTo,
      Coercer.LiteralCoercesTo, GetLiteralCoercionCost, GetTypeCoercionCost,
      simpleCost, simpleImplicitCost, SignatureMatchResult.zero,
      SignatureMatchResult.addSuccess, SignatureMatchResult.addFailure,
      List.filter, List.all, List.foldl, List.find?, List.map]
  · simp +decide [SqlType.stripFieldAliases]

/-- C8 as amended: (i) under any permutation of the member list, every
candidate's qualification verdict and aggregate coercion distance are
unchanged and the candidate pool is permuted accordingly; (ii) for sets of
non-struct non-array members in which no two distinct qualifying
candidates share an aggregate distance, `GetCommonSuperType` is fully
invariant under permutation; (iii) on the claim's own struct example the
two orders differ exactly in the field aliases, which follow the first
non-NULL member, and agree after stripping aliases.  (Unrestricted
invariance up to aliases is refuted: with tied qualifying candidates the
first-declared one wins, so reordering can change the resulting type
itself.) -/
theorem C8_order_invariance :
    (∀ (args args2 : List InputArgumentType) (tpal : Bool) (c : SqlType),
        args.Perm args2 →
        Coercer.qualifiesAsSuperType args c = Coercer.qualifiesAsSuperType args2 c ∧
        Coercer.aggregateDistance args c = Coercer.aggregateDistance args2 c ∧
        (Coercer.candidateTypes args tpal).Perm (Coercer.candidateTypes args2 tpal)) ∧
    (∀ (args args2 : List InputArgumentType),
        args.Perm args2 →
        (∀ a ∈ args, a.typ.isStruct = false ∧ a.typ.isArray = false) →
        (∀ c d : SqlType, c ∈ Coercer.candidateTypes args true →
          d ∈ Coercer.candidateTypes args true →
          Coercer.qualifiesAsSuperType args c = true →
          Coercer.qualifiesAsSuperType args d = true →
          Coercer.aggregateDistance args c = Coercer.aggregateDistance args d →
          c = d) →
        Coercer.GetCommonSuperType ⟨args⟩ = Coercer.GetCommonSuperType ⟨args2⟩) ∧
    (Coercer.GetCommonSuperType
        ⟨[.mk (.struct (.cons "a" .int64 .nil)) .expression .nonLiteralFields,
          .mk (.struct (.cons "b" .int64 .nil)) .expression .nonLiteralFields]⟩ =
      some (.struct (.cons "a" .int64 .nil)) ∧
     Coercer.GetCommonSuperType
        ⟨[.mk (.struct (.cons "b" .int64 .nil)) .expression .nonLiteralFields,
          .mk (.struct (.cons "a" .int64 .nil)) .expression .nonLiteralFields]⟩ =
      some (.struct (.cons "b" .int64 .nil)) ∧
     SqlType.stripFieldAliases (.struct (.cons "a" .int64 .nil)) =
       SqlType.stripFieldAliases (.struct (.cons "b" .int64 .nil))) := by
  refine ⟨?_, ?_, ?_, ?_, ?_⟩
  · intro args args2 tpal c h
    exact ⟨Coercer.qualifiesAsSuperType_perm args args2 c h,
      Coercer.aggregateDistance_perm args args2 c h,
      Coercer.candidateTypes_perm args args2 tpal h⟩
  · intro args args2 hperm hscalar hnotie
    show Coercer.commonSuperTypeList args true = Coercer.commonSuperTypeList args2 true
    cases args with
    | nil =>
        have h0 : args2 = [] := List.Perm.eq_nil hperm.symm
        subst h0
        rfl
    | cons a0 rest =>
        cases args2 with
        | nil => exact absurd (List.Perm.eq_nil hperm) (by simp)
        | cons b0 rest2 =>
            have hs1 : (a0 :: rest).any (fun x => x.typ.isStruct) = false :=
              List.any_eq_false.mpr
                (fun x hx => by simp [(hscalar x hx).1])
            have ha1 : (a0 :: rest).any (fun x => x.typ.isArray) = false :=
              List.any_eq_false.mpr
                (fun x hx => by simp [(hscalar x hx).2])
            have hs2 : (b0 :: rest2).any (fun x => x.typ.isStruct) = false :=
              List.any_eq_false.mpr
                (fun x hx => by simp [(hscalar x (hperm.mem_iff.mpr hx)).1])
            have ha2 : (b0 :: rest2).any (fun x => x.typ.isArray) = false :=
              List.any_eq_false.mpr
                (fun x hx => by simp [(hscalar x (hperm.mem_iff.mpr hx)).2])
            rw [Coercer.commonSuperTypeList_scalar a0 rest true hs1 ha1,
              Coercer.commonSuperTypeList_scalar b0 rest2 true hs2 ha2]
            rcases hp1 : Coercer.pickBestCandidate (a0 :: rest)
                (Coercer.candidateTypes (a0 :: rest) true) with _ | c1 <;>
              rcases hp2 : Coercer.pickBestCandidate (b0 :: rest2)
                (Coercer.candidateTypes (b0 :: rest2) true) with _ | c2
            · rfl
            · exfalso
              obtain ⟨hm2, hq2⟩ := Coercer.pickBestCandidate_qualifies _ _ _ hp2
              have hq1 : Coercer.qualifiesAsSuperType (a0 :: rest) c2 = true := by
                rw [Coercer.qualifiesAsSuperType_perm _ _ c2 hperm]; exact hq2
              have hm1 : c2 ∈ Coercer.candidateTypes (a0 :: rest) true :=
                (Coercer.candidateTypes_perm _ _ true hperm).mem_iff.mpr hm2
              have hf := Coercer.pickBestCandidate_none _ _ hp1 c2 hm1
              rw [hq1] at hf
              exact Bool.noConfusion hf
            · exfalso
              obtain ⟨hm1, hq1⟩ := Coercer.pickBestCandidate_qualifies _ _ _ hp1
              have hq2 : Coercer.qualifiesAsSuperType (b0 :: rest2) c1 = true := by
                rw [← Coercer.qualifiesAsSuperType_perm _ _ c1 hperm]; exact hq1
              have hm2 : c1 ∈ Coercer.candidateTypes (b0 :: rest2) true :=
                (Coercer.candidateTypes_perm _ _ true hperm).mem_iff.mp hm1
              have hf := Coercer.pickBestCandidate_none _ _ hp2 c1 hm2
              rw [hq2] at hf
              exact Bool.noConfusion hf
            · obtain ⟨hm1, hq1⟩ := Coercer.pickBestCandidate_qualifies _ _ _ hp1
              obtain ⟨hm2, hq2⟩ := Coercer.pickBestCandidate_qualifies _ _ _ hp2
              have hm2' : c2 ∈ Coercer.candidateTypes (a0 :: rest) true :=
                (Coercer.candidateTypes_perm _ _ true hperm).mem_iff.mpr hm2
              have hq2' : Coercer.qualifiesAsSuperType (a0 :: rest) c2 = true := by
                rw [Coercer.qualifiesAsSuperType_perm _ _ c2 hperm]; exact hq2
              have hm1' : c1 ∈ Coercer.candidateTypes (b0 :: rest2) true :=
                (Coercer.candidateTypes_perm _ _ true hperm).mem_iff.mp hm1
              have hq1' : Coercer.qualifiesAsSuperType (b0 :: rest2) c1 = true := by
                rw [← Coercer.qualifiesAsSuperType_perm _ _ c1 hperm]; exact hq1
              have hle1 : Coercer.aggregateDistance (a0 :: rest) c1 ≤
                  Coercer.aggregateDistance (a0 :: rest) c2 :=
                Coercer.pickBestCandidate_min _ _ _ hp1 c2 hm2' hq2'
              have hle2 : Coercer.aggregateDistance (b0 :: rest2) c2 ≤
                  Coercer.aggregateDistance (b0 :: rest2) c1 :=
                Coercer.pickBestCandidate_min _ _ _ hp2 c1 hm1' hq1'
              rw [← Coercer.aggregateDistance_perm _ _ c2 hperm,
                ← Coercer.aggregateDistance_perm _ _ c1 hperm] at hle2
              have heq : Coercer.aggregateDistance (a0 :: rest) c1 =
                  Coercer.aggregateDistance (a0 :: rest) c2 := by omega
              rw [hnotie c1 c2 hm1 hm2' hq1 hq2' heq]
  · simp +decide [Coercer.GetCommonSuperType, Coercer.GetCommonSuperTypeImpl,
      Coercer.commonSuperTypeList, Coercer.commonStructFields, Coercer.fieldArgAt,
      effectiveFieldArg, listFirstNonNull, SqlType.isStruct, SqlType.isArray,
      SqlType.fieldCount, FieldList.count, FieldList.typeAt, Coercer.candidateTypes,
      Coercer.isFlexible, Coercer.pickBestCandidate, Coercer.pickStep,
      Coercer.qualifiesAsSuperType, Coercer.coercesImplicitly,
      InputArgumentType.typ, InputArgumentType.fieldArgs,
      InputArgumentType.isLiteral, InputArgumentType.isParameter,
      InputArgumentType.isLiteralNull, Coercer.CoercesTo, Coercer.TypeCoercesTo,
      simpleCost, simpleImplicitCost, List.filter, List.all, List.foldl,
      List.find?, List.map]
  · simp +decide [Coercer.GetCommonSuperType, Coercer.GetCommonSuperTypeImpl,
      Coercer.commonSuperTypeList, Coercer.commonStructFields, Coercer.fieldArgAt,
      effectiveFieldArg, listFirstNonNull, SqlType.isStruct, SqlType.isArray,
      SqlType.fieldCount, FieldList.count, FieldList.typeAt, Coercer.candidateTypes,
      Coercer.isFlexible, Coercer.pickBestCandidate, Coercer.pickStep,
      Coercer.qualifiesAsSuperType, Coercer.coercesImplicitly,
      InputArgumentType.typ, InputArgumentType.fieldArgs,
      InputArgumentType.isLiteral, InputArgumentType.isParameter,
      InputArgumentType.isLiteralNull, Coercer.CoercesTo, Coercer.TypeCoercesTo,
      simpleCost, simpleImplicitCost, List.filter, List.all, List.foldl,
      List.find?, List.map]
  · simp [SqlType.stripFieldAliases, FieldList.stripFieldAliases]

/-- C8 witness: the amended invariance applied to the concrete set of an
INT32 expression and an INT64 expression and its transposition: both
members are scalar, INT64 is the only qualifying candidate (so no two
distinct qualifying candidates tie), and the supertype is the same for
both orders. -/
theorem C8_order_invariance_witness :
    Coercer.GetCommonSuperType
        ⟨[.mk .int32 .expression .nonLiteralFields,
          .mk .int64 .expression .nonLiteralFields]⟩ =
      Coercer.GetCommonSuperType
        ⟨[.mk .int64 .expression .nonLiteralFields,
          .mk .int32 .expression .nonLiteralFields]⟩ := by
  apply C8_order_invariance.2.1
  · exact List.Perm.swap _ _ []
  · intro a ha
    simp only [List.mem_cons, List.not_mem_nil, or_false] at ha
    rcases ha with rfl | rfl <;> exact ⟨rfl, rfl⟩
  · intro c d hc hd hqc hqd _
    have hc' : c = SqlType.int32 ∨ c = SqlType.int64 := by
      simpa [Coercer.candidateTypes, Coercer.isFlexible,
        InputArgumentType.isLiteral, InputArgumentType.isParameter,
        List.filter, List.map, InputArgumentType.typ] using hc
    have hd' : d = SqlType.int32 ∨ d = SqlType.int64 := by
      simpa [Coercer.candidateTypes, Coercer.isFlexible,
        InputArgumentType.isLiteral, InputArgumentType.isParameter,
        List.filter, List.map, InputArgumentType.typ] using hd
    have hno : Coercer.qualifiesAsSuperType
        [InputArgumentType.mk .int32 .expression .nonLiteralFields,
          InputArgumentType.mk .int64 .expression .nonLiteralFields]
        SqlType.int32 = false := by
      simp +decide [Coercer.qualifiesAsSuperType, Coercer.coercesImplicitly,
        Coercer.CoercesTo, Coercer.TypeCoercesTo, InputArgumentType.typ,
        InputArgumentType.isLiteralNull, simpleCost, simpleImplicitCost,
        List.all]
    rcases hc' with rfl | rfl <;> rcases hd' with rfl | rfl
    · rfl
    · rw [hno] at hqc; exact Bool.noConfusion hqc
    · rw [hno] at hqd; exact Bool.noConfusion hqd
    · rfl
